import Mathlib

set_option maxHeartbeats 1000000

/-!
Shallow embedding of the pyUE4Parse versioned binary decoding engine:
`UE4Parse/BinaryReader.py` (class `BinaryStream`) and the mesh decoders
`UE4Parse/Objects/Meshes/FRawStaticIndexBuffer.py` and
`UE4Parse/Objects/Meshes/FStaticMeshLODResources.py`.

Bytes are modelled as `Nat` values `< 256`, streams as a byte list plus a
cursor, readers as state-passing functions returning `Except`.  Python
strings are modelled as lists of Unicode code points (`List Nat`).
-/

/-- The Python exceptions the reader raises, carrying the data their
messages interpolate.  `rawArraySizeMismatch expected consumed count` is the
`ParserException` of `readBulkTArray`, whose message interpolates
`element_size` and the float `(self.tell() - save_pos) / len(array)`, i.e.
the rational `consumed / count`.  `structError` is `struct.error` from
`unpack` on a too-short buffer, `archiveCorrupted` the bare
`Exception("Archive is corrupted.")` of `readFString`. -/
inductive Err where
  | parserException (msg : String)
  | structError
  | indexError (msg : String)
  | notImplemented (msg : String)
  | archiveCorrupted
  | unicodeDecodeError
  | rawArraySizeMismatch (expected : Int) (consumedBytes : Int) (count : Nat)
  deriving DecidableEq, Repr

/-- State of a `BinaryStream`: the bytes of the current physical source, the
cursor of the underlying `BytesIO`, the recorded `size`, the `fake_size`
installed by `change_stream`, the engine `version` and `game` tags, and the
name table.  The name table is modelled from the spec: it is owned by the
surrounding package/session context (`get_name_map` is not part of the shown
core) and is carried here as a field of the stream context. -/
structure BStream where
  data : List Nat
  pos : Nat
  size : Int
  fake_size : Int
  version : Nat
  game : Nat
  nameMap : List String
  deriving DecidableEq, Repr

/-- `BinaryStream(bytes)`: fresh stream over a byte buffer, `size = len`,
cursor at 0 (version/game/name table defaulted). -/
def mkBStream (bs : List Nat) : BStream :=
  { data := bs, pos := 0, size := (bs.length : Int), fake_size := 0,
    version := 0, game := 0, nameMap := [] }

instance instDecidableEqExcept {ε α : Type} [DecidableEq ε] [DecidableEq α] :
    DecidableEq (Except ε α) := fun x y =>
  match x, y with
  | .error a, .error b =>
    if h : a = b then isTrue (by rw [h])
    else isFalse (by intro hc; injection hc; contradiction)
  | .ok a, .ok b =>
    if h : a = b then isTrue (by rw [h])
    else isFalse (by intro hc; injection hc; contradiction)
  | .error a, .ok b => isFalse (by intro hc; injection hc)
  | .ok a, .error b => isFalse (by intro hc; injection hc)

/-- A reader: consumes from the stream, returns a value or raises. -/
def Reader (α : Type) : Type := BStream → Except Err (α × BStream)

def rpure {α : Type} (a : α) : Reader α := fun s => .ok (a, s)

def rthrow {α : Type} (e : Err) : Reader α := fun _ => .error e

def rbind {α β : Type} (f : Reader α) (g : α → Reader β) : Reader β := fun s =>
  match f s with
  | .error e => .error e
  | .ok (a, s') => g a s'

/-- `BytesIO.read(n)`: returns up to `n` bytes from the cursor (silently
short at end of stream) and advances the cursor by the number returned. -/
def bytesRead (s : BStream) (n : Nat) : List Nat × BStream :=
  let chunk := (s.data.drop s.pos).take n
  (chunk, { s with pos := s.pos + chunk.length })

/-- Little-endian value of a byte list (`int.from_bytes(bs, "little")`). -/
def leNat : List Nat → Nat
  | [] => 0
  | b :: bs => b + 256 * leNat bs

/-- Two's-complement reinterpretation of a `w`-byte unsigned value. -/
def toSigned (w : Nat) (v : Nat) : Int :=
  if v < 2 ^ (8 * w - 1) then (v : Int) else (v : Int) - 2 ^ (8 * w)

/-- `readByteToInt(length)`: `int.from_bytes(self.base_stream.read(length),
"little")` — silently tolerates a short read. -/
def readByteToInt (n : Nat) : Reader Nat := fun s =>
  let r := bytesRead s n
  .ok (leNat r.1, r.2)

def readUInt8 : Reader Nat := readByteToInt 1

def readInt8 : Reader Nat := readByteToInt 1

/-- `struct.unpack` consuming exactly `n` bytes: raises `struct.error` when
fewer bytes remain. -/
def unpackBytes (n : Nat) : Reader (List Nat) := fun s =>
  let r := bytesRead s n
  if r.1.length = n then .ok (r.1, r.2) else .error .structError

/-- Fixed-width little-endian unsigned read via `unpack`. -/
def unpackLE (w : Nat) : Reader Nat :=
  rbind (unpackBytes w) fun bs => rpure (leNat bs)

/-- Fixed-width little-endian signed read via `unpack`. -/
def unpackLEInt (w : Nat) : Reader Int :=
  rbind (unpackBytes w) fun bs => rpure (toSigned w (leNat bs))

def readUInt16 : Reader Nat := unpackLE 2
def readUInt32 : Reader Nat := unpackLE 4
def readUInt64 : Reader Nat := unpackLE 8
def readInt16 : Reader Int := unpackLEInt 2
def readInt32 : Reader Int := unpackLEInt 4
def readInt64 : Reader Int := unpackLEInt 8

/-- `readFloat`/`maxDeviation`: `unpack('f', 4)`.  The IEEE-754 value is
modelled by its 32-bit little-endian bit pattern; only byte consumption and
bit identity matter for the claims. -/
def readFloat : Reader Nat := unpackLE 4

/-- `readDouble`: `unpack('d', 8)`, modelled by its 64-bit little-endian bit
pattern like `readFloat`. -/
def readDouble : Reader Nat := unpackLE 8

/-- `readBool`: booleans are serialized as int32; any value other than 0 or
1 raises `ParserException("Invalid boolean value")`. -/
def readBool : Reader Bool :=
  rbind readInt32 fun val =>
    if val = 0 then rpure false
    else if val = 1 then rpure true
    else rthrow (.parserException "Invalid boolean value")

/-- `w`-byte little-endian encoding of a natural number (low byte first). -/
def encNat : Nat → Nat → List Nat
  | 0, _ => []
  | w + 1, v => v % 256 :: encNat w (v / 256)

/-- Bytes `struct.pack` produces for an in-range signed/unsigned value of
width `w`: the two's-complement residue, little-endian. -/
def packIntW (w : Nat) (v : Int) : List Nat :=
  encNat w (v % (2 ^ (8 * w)) : Int).toNat

/-- 4-byte little-endian encoding of a signed 32-bit value. -/
def encInt32 (v : Int) : List Nat := packIntW 4 v

/-- Concatenated `w`-byte little-endian encodings of a list of code units
(the byte image of a UCS2 payload). -/
def encUnits (w : Nat) : List Nat → List Nat
  | [] => []
  | u :: us => encNat w u ++ encUnits w us

/-- Strict Python `bytes.decode("utf-8")`: code points of a byte list, or
`none` on invalid UTF-8 (continuation errors, overlongs, surrogates,
out-of-range, truncation). -/
def utf8DecodeAux : Nat → List Nat → Option (List Nat)
  | _, [] => some []
  | 0, _ :: _ => none
  | fuel + 1, b :: rest =>
    if b < 0x80 then
      match utf8DecodeAux fuel rest with
      | some cps => some (b :: cps)
      | none => none
    else if b < 0xC2 then none
    else if b < 0xE0 then
      match rest with
      | c1 :: rest2 =>
        if 0x80 ≤ c1 ∧ c1 < 0xC0 then
          match utf8DecodeAux fuel rest2 with
          | some cps => some (((b - 0xC0) * 0x40 + (c1 - 0x80)) :: cps)
          | none => none
        else none
      | [] => none
    else if b < 0xF0 then
      match rest with
      | c1 :: c2 :: rest3 =>
        if (0x80 ≤ c1 ∧ c1 < 0xC0) ∧ (0x80 ≤ c2 ∧ c2 < 0xC0) ∧
            (b ≠ 0xE0 ∨ 0xA0 ≤ c1) ∧ (b ≠ 0xED ∨ c1 < 0xA0) then
          match utf8DecodeAux fuel rest3 with
          | some cps =>
            some (((b - 0xE0) * 0x1000 + (c1 - 0x80) * 0x40 + (c2 - 0x80)) :: cps)
          | none => none
        else none
      | _ => none
    else if b < 0xF5 then
      match rest with
      | c1 :: c2 :: c3 :: rest4 =>
        if (0x80 ≤ c1 ∧ c1 < 0xC0) ∧ (0x80 ≤ c2 ∧ c2 < 0xC0) ∧
            (0x80 ≤ c3 ∧ c3 < 0xC0) ∧
            (b ≠ 0xF0 ∨ 0x90 ≤ c1) ∧ (b ≠ 0xF4 ∨ c1 < 0x90) then
          match utf8DecodeAux fuel rest4 with
          | some cps =>
            some (((b - 0xF0) * 0x40000 + (c1 - 0x80) * 0x1000 +
              (c2 - 0x80) * 0x40 + (c3 - 0x80)) :: cps)
          | none => none
        else none
      | _ => none
    else none

/-- Entry point: the fuel (one unit per decoded character) can never run out
since every character consumes at least one byte. -/
def utf8Decode (bs : List Nat) : Option (List Nat) := utf8DecodeAux bs.length bs

/-- Reads `n` elements in order with the given element decoder (the
comprehension `tuple(func(*args) for _ in range(n))` / the UCS2 loop of
`readFString`). -/
def readTArrayN {α : Type} (f : Reader α) : Nat → Reader (List α)
  | 0 => rpure []
  | n + 1 => rbind f fun x => rbind (readTArrayN f n) fun xs => rpure (x :: xs)

/-- `readTArray`: a 4-byte signed count then that many elements.  A negative
count means `range(count)` is empty, so no elements are read. -/
def readTArray {α : Type} (f : Reader α) : Reader (List α) :=
  rbind readInt32 fun serializeNum => readTArrayN f serializeNum.toNat

/-- `readBulkTArray`: a 4-byte declared per-element size, `save_pos =
self.tell()`, the array, then the self-check
`self.tell() == save_pos + 4 + len(array) * element_size`. -/
def readBulkTArray {α : Type} (f : Reader α) : Reader (List α) :=
  rbind readInt32 fun element_size => fun s =>
    match readTArray f s with
    | .error e => .error e
    | .ok (array, s') =>
      if (s'.pos : Int) = (s.pos : Int) + 4 + array.length * element_size then
        .ok (array, s')
      else
        .error (.rawArraySizeMismatch element_size ((s'.pos : Int) - (s.pos : Int))
          array.length)

/-- `readString`: 1-byte length prefix (`readByteToInt`), then that many
bytes via `unpack` decoded as UTF-8. -/
def readString : Reader (List Nat) :=
  rbind readUInt8 fun length =>
  rbind (unpackBytes length) fun bs => fun s =>
    match utf8Decode bs with
    | some cps => .ok (cps, s)
    | none => .error .unicodeDecodeError

/-- `readFString`: 4-byte signed length doubling as an encoding switch.
`INT32_MIN` is a corruption error; negative length means `-length` 16-bit
code units with the last dropped as terminator (one character per unit, no
surrogate pairing); zero means empty; positive means that many bytes via a
plain (silently short-tolerant) read, with the final byte dropped as
terminator and the rest decoded as UTF-8. -/
def readFString : Reader (List Nat) :=
  rbind readInt32 fun length0 => fun s =>
    if length0 < 0 ∧ length0 = -2147483648 then .error .archiveCorrupted
    else if (if length0 < 0 then -length0 else length0) = 0 then .ok ([], s)
    else if length0 < 0 then
      (rbind (readTArrayN readUInt16 (-length0).toNat) fun units =>
        rpure units.dropLast) s
    else
      match utf8Decode ((bytesRead s length0.toNat).1.dropLast) with
      | some cps => .ok (cps, (bytesRead s length0.toNat).2)
      | none => .error .unicodeDecodeError

/-- The `FName` triple: resolved string, table index, instance number
(modelled from the spec: the `FName` class lives outside the shown core). -/
structure FNameT where
  text : String
  index : Int
  number : Int
  deriving DecidableEq, Repr

/-- The message of the `IndexError` raised by `readFName`. -/
def badNameIndexMsg (nameIndex : Int) (tableLen : Nat) (readerPos : Nat) : String :=
  "Bad Name Index: " ++ toString nameIndex ++ "/" ++ toString tableLen ++
    " - Reader Position: " ++ toString readerPos

/-- `readFName`: two 4-byte integers (table index, instance number); an
index outside `[0, len(NameMap))` raises an `IndexError` whose message
interpolates the index, the table length and the reader position. -/
def readFName : Reader FNameT := fun s0 =>
  (rbind readInt32 fun nameIndex =>
   rbind readInt32 fun number => fun s =>
     if h : 0 ≤ nameIndex ∧ nameIndex < (s.nameMap.length : Int) then
       .ok (⟨s.nameMap.get ⟨nameIndex.toNat, by omega⟩, nameIndex, number⟩, s)
     else
       .error (.indexError (badNameIndexMsg nameIndex s.nameMap.length s.pos))) s0

/-- `change_stream` on another `BinaryStream`: rebinds `base_stream` (data
and physical cursor), sets `fake_size = self.size + fp.size` and
`size = fp.size`. -/
def change_stream (self fp : BStream) : BStream :=
  { self with
    data := fp.data, pos := fp.pos,
    fake_size := self.size + fp.size, size := fp.size }

/-- `tellfake`: `(self.fake_size - self.size) + self.base_stream.tell()`. -/
def tellfake (s : BStream) : Int := (s.fake_size - s.size) + (s.pos : Int)

/-- `writeBytes`: `BytesIO.write` at the cursor (overwrite then extend),
with `self.size += len(value)`. -/
def writeBytes (s : BStream) (value : List Nat) : BStream :=
  { s with
    data := s.data.take s.pos ++ value ++ s.data.drop (s.pos + value.length),
    pos := s.pos + value.length, size := s.size + value.length }

/-- `writeBool`: `pack('?', value)` emits a single byte. -/
def writeBool (s : BStream) (value : Bool) : BStream :=
  writeBytes s [if value then 1 else 0]

def writeInt16 (s : BStream) (value : Int) : BStream := writeBytes s (packIntW 2 value)
def writeUInt16 (s : BStream) (value : Int) : BStream := writeBytes s (packIntW 2 value)
def writeInt32 (s : BStream) (value : Int) : BStream := writeBytes s (packIntW 4 value)
def writeUInt32 (s : BStream) (value : Int) : BStream := writeBytes s (packIntW 4 value)
def writeInt64 (s : BStream) (value : Int) : BStream := writeBytes s (packIntW 8 value)
def writeUInt64 (s : BStream) (value : Int) : BStream := writeBytes s (packIntW 8 value)

/-- `writeFloat`: `pack('f', value)` — like `readFloat`, the IEEE-754 value
is modelled by its 32-bit bit pattern, so the bytes written are its 4-byte
little-endian encoding. -/
def writeFloat (s : BStream) (bits : Nat) : BStream := writeBytes s (encNat 4 bits)

/-- `writeDouble`: `pack('d', value)`, the 8-byte little-endian encoding of
the 64-bit bit pattern. -/
def writeDouble (s : BStream) (bits : Nat) : BStream := writeBytes s (encNat 8 bits)

/-- `writeString`: a 2-byte `writeUInt16` length prefix, then the value's
bytes via `pack(str(length) + 's', value)`. -/
def writeString (s : BStream) (value : List Nat) : BStream :=
  writeBytes (writeUInt16 s (value.length : Int)) value

/-- Chops a byte list into `w`-byte chunks (ignoring a trailing partial
chunk) and maps `g` over them: the reference value of reading
`len / w` fixed-width elements from a fresh stream over those bytes. -/
def mapChunksAux {α : Type} (g : List Nat → α) (w : Nat) : Nat → List Nat → List α
  | 0, _ => []
  | fuel + 1, bs =>
    if w = 0 ∨ bs.length < w then []
    else g (bs.take w) :: mapChunksAux g w fuel (bs.drop w)

/-- Entry point: fuel one per chunk, each chunk consumes at least one
byte. -/
def mapChunks {α : Type} (g : List Nat → α) (w : Nat) (bs : List Nat) : List α :=
  mapChunksAux g w bs.length bs

/-- Modelled from the spec: the ordered engine-version constant
`Versions.VER_UE4_SUPPORT_32BIT_STATIC_MESH_INDICES` (the version enum
module is not part of the shown core); only its order relative to stream
versions matters. -/
def VER_UE4_SUPPORT_32BIT_STATIC_MESH_INDICES : Nat := 246

/-- Modelled from the spec: `GAME_UE4(x)` of the version/game tag supplier —
the ordered game-variant tag for engine release `4.x`, monotone in `x`. -/
def GAME_UE4 (x : Nat) : Nat := 4 * 2 ^ 24 + x * 2 ^ 16

def CDSF_AdjancencyData : Nat := 1
def CDSF_MinLodData : Nat := 2
def CDSF_ReversedIndexBuffer : Nat := 4
def CDSF_RaytracingResources : Nat := 8

structure FStripDataFlags where
  globalStripFlags : Nat
  classStripFlags : Nat
  deriving DecidableEq, Repr

/-- Modelled from the spec: `FStripDataFlags(reader)` (the class is not part
of the shown core) — "a small bitmask read immediately before a structure's
optional sections": a global strip byte then a per-class strip byte. -/
def FStripDataFlags.read : Reader FStripDataFlags :=
  rbind readUInt8 fun g => rbind readUInt8 fun c => rpure ⟨g, c⟩

/-- Modelled from the spec: the named bit answering "is this class's data
stripped for server builds". -/
def FStripDataFlags.isDataStrippedForServer (f : FStripDataFlags) : Bool :=
  f.globalStripFlags &&& 2 != 0

/-- Modelled from the spec: the named bit answering "is editor-only data
stripped". -/
def FStripDataFlags.isEditorDataStripped (f : FStripDataFlags) : Bool :=
  f.globalStripFlags &&& 1 != 0

/-- Modelled from the spec: "is this particular optional block's data
stripped", testable per class-strip bit. -/
def FStripDataFlags.isClassDataStripped (f : FStripDataFlags) (flag : Nat) : Bool :=
  f.classStripFlags &&& flag != 0

structure FRawStaticIndexBuffer where
  indices16 : List Nat
  indices32 : List Nat
  deriving DecidableEq, Repr

/-- `FRawStaticIndexBuffer.__init__`: below the 32-bit-indices version
threshold, a bulk array of 16-bit values; at or above it, a wide boolean
width flag, a byte-level bulk array, an extra wide boolean for game ≥
UE4.25, then — unless the byte array is empty — reinterpretation of the
bytes as `len/4` 32-bit or `len/2` 16-bit little-endian values via a fresh
`BinaryStream` over exactly those bytes. -/
def FRawStaticIndexBuffer.read : Reader FRawStaticIndexBuffer := fun s =>
  if s.version < VER_UE4_SUPPORT_32BIT_STATIC_MESH_INDICES then
    (rbind (readBulkTArray readUInt16) fun a => rpure ⟨a, []⟩) s
  else
    (rbind readBool fun is32bit =>
     rbind (readBulkTArray readInt8) fun data =>
     rbind (fun u =>
       if GAME_UE4 25 ≤ u.game then (rbind readBool fun _ => rpure ()) u
       else rpure () u) fun _ =>
     fun u =>
       if data.length = 0 then .ok (⟨[], []⟩, u)
       else if is32bit then
         match readTArrayN readUInt32 (data.length / 4) (mkBStream data) with
         | .ok (vs, _) => .ok (⟨[], vs⟩, u)
         | .error e => .error e
       else
         match readTArrayN readUInt16 (data.length / 2) (mkBStream data) with
         | .ok (vs, _) => .ok (⟨vs, []⟩, u)
         | .error e => .error e) s

/-- The sub-buffers `serializeBuffer` assigns (position/vertex buffers and
samplers are decoded by external classes passed as parameters and carry no
data here). -/
structure SerializedLODBuffers where
  indexBuffer : FRawStaticIndexBuffer
  reversedIndexBuffer : Option FRawStaticIndexBuffer
  wireframeIndexBuffer : Option FRawStaticIndexBuffer
  adjacencyIndexBuffer : Option FRawStaticIndexBuffer
  deriving DecidableEq, Repr

/-- `FStaticMeshLODResources.serializeBuffer`.  The external sub-decoders
(`FPositionVertexBuffer`, `FStaticMeshVertexBuffer`,
`FWeightedRandomSampler`) are outside the shown core and taken as
parameters.  `stripFlags` is the structure-level `self.stripFlags`,
`sectionsLen` is `len(self.sections)`.  The buffer-local `strip_flags` value
read first is bound and never consulted, exactly as in the source. -/
def serializeBufferBody (posDec vertDec samplerDec : Reader Unit)
    (stripFlags : FStripDataFlags) (sectionsLen : Nat) :
    Reader SerializedLODBuffers :=
  rbind posDec fun _ =>
  rbind vertDec fun _ =>
  rbind FRawStaticIndexBuffer.read fun indexBuffer =>
  rbind (if !stripFlags.isClassDataStripped CDSF_ReversedIndexBuffer then
           rbind FRawStaticIndexBuffer.read fun b => rpure (some b)
         else rpure none) fun reversedIndexBuffer =>
  rbind (if !stripFlags.isEditorDataStripped then
           rbind FRawStaticIndexBuffer.read fun b => rpure (some b)
         else rpure none) fun wireframeIndexBuffer =>
  rbind (if !stripFlags.isClassDataStripped CDSF_AdjancencyData then
           rbind FRawStaticIndexBuffer.read fun b => rpure (some b)
         else rpure none) fun adjacencyIndexBuffer =>
  rbind (fun u =>
    if GAME_UE4 25 ≤ u.game ∧ !stripFlags.isClassDataStripped CDSF_RaytracingResources then
      (rbind (readBulkTArray readUInt8) fun _ => rpure ()) u
    else rpure () u) fun _ =>
  rbind (readTArrayN samplerDec sectionsLen) fun _ =>
  rbind samplerDec fun _ =>
  rpure ⟨indexBuffer, reversedIndexBuffer, wireframeIndexBuffer, adjacencyIndexBuffer⟩

/-- `FStaticMeshLODResources.serializeBuffer`: the buffer-local
`strip_flags` value is read first, bound and never consulted (exactly as in
the source), then the body proceeds using only the structure-level
`stripFlags`. -/
def serializeBuffer (posDec vertDec samplerDec : Reader Unit)
    (stripFlags : FStripDataFlags) (sectionsLen : Nat) :
    Reader SerializedLODBuffers :=
  rbind FStripDataFlags.read fun _strip_flags =>
  serializeBufferBody posDec vertDec samplerDec stripFlags sectionsLen

/-- The fields `FStaticMeshLODResources.__init__` assigns; `buffers` is
`none` when `serializeBuffer` was skipped (stripped / cooked out / legacy
path not taken). -/
structure FStaticMeshLODResourcesT where
  stripFlags : FStripDataFlags
  sectionsLen : Nat
  maxDeviation : Nat
  is_lod_cooked_out : Bool
  inlined : Bool
  buffers : Option SerializedLODBuffers
  deriving DecidableEq, Repr

/-- `FStaticMeshLODResources.__init__`: strip flags, sections array, max
deviation float; for game < UE4.23 the legacy buffer path (explicitly
unimplemented: `NotImplementedError("UE 4.23+ meshes only currently")`)
unless server-stripped or MinLod-class-stripped; otherwise two wide
booleans, `serializeBuffer` when present and inlined, a bare
`NotImplementedError` when present but not inlined, then three size
uint32s. -/
def FStaticMeshLODResources (secDec posDec vertDec samplerDec : Reader Unit) :
    Reader FStaticMeshLODResourcesT :=
  rbind FStripDataFlags.read fun stripFlags =>
  rbind (readTArray secDec) fun sections =>
  rbind readFloat fun maxDeviation => fun s =>
  if s.game < GAME_UE4 23 then
    if !stripFlags.isDataStrippedForServer ∧
        !stripFlags.isClassDataStripped CDSF_MinLodData then
      .error (.notImplemented "UE 4.23+ meshes only currently")
    else
      .ok (⟨stripFlags, sections.length, maxDeviation, false, false, none⟩, s)
  else
    (rbind readBool fun is_lod_cooked_out =>
     rbind readBool fun inlined =>
     rbind (if !stripFlags.isDataStrippedForServer ∧ !is_lod_cooked_out then
              (if inlined then
                 rbind (serializeBuffer posDec vertDec samplerDec stripFlags
                   sections.length) fun b => rpure (some b)
               else rthrow (.notImplemented ""))
            else rpure none) fun buffers =>
     rbind readUInt32 fun _ =>
     rbind readUInt32 fun _ =>
     rbind readUInt32 fun _ =>
     rpure ⟨stripFlags, sections.length, maxDeviation, is_lod_cooked_out,
       inlined, buffers⟩) s
/-- Two states with the same unread byte suffix and the same
version/game/name-table context (cursors in bounds). -/
def SameSuffix (s t : BStream) : Prop :=
  s.pos ≤ s.data.length ∧ t.pos ≤ t.data.length ∧
  s.data.drop s.pos = t.data.drop t.pos ∧
  s.version = t.version ∧ s.game = t.game ∧ s.nameMap = t.nameMap

/-- Two reader outcomes agree: identical errors, or identical values with
same-suffix final states. -/
def Agree {α : Type} : Except Err (α × BStream) → Except Err (α × BStream) → Prop
  | .error e1, .error e2 => e1 = e2
  | .ok (v1, s1), .ok (v2, t1) => v1 = v2 ∧ SameSuffix s1 t1
  | _, _ => False

/-- A reader that only moves the cursor forward, leaving the byte source
and context untouched. -/
def PosOnly {α : Type} (f : Reader α) : Prop :=
  ∀ (s : BStream) (v : α) (s' : BStream), f s = .ok (v, s') →
    s'.data = s.data ∧ s.pos ≤ s'.pos

/-- A reader whose outcome is determined by the unread suffix (plus the
version/game/name-table context) alone. -/
def LocalR {α : Type} (f : Reader α) : Prop :=
  PosOnly f ∧ ∀ s t : BStream, SameSuffix s t → Agree (f s) (f t)

theorem encNat_length (w v : Nat) : (encNat w v).length = w := by
  induction w generalizing v with
  | zero => rfl
  | succ w ih => simp [encNat, ih]

theorem leNat_encNat {w v : Nat} (h : v < 256 ^ w) : leNat (encNat w v) = v := by
  induction w generalizing v with
  | zero =>
    simp [encNat, leNat]
    omega
  | succ w ih =>
    have hdiv : v / 256 < 256 ^ w := by
      rw [Nat.div_lt_iff_lt_mul (by norm_num)]
      calc v < 256 ^ (w + 1) := h
        _ = 256 ^ w * 256 := by ring
    simp [encNat, leNat, ih hdiv]
    omega

theorem bytesRead_spec (s : BStream) (pre mid rest : List Nat)
    (hd : s.data = pre ++ mid ++ rest) (hp : s.pos = pre.length) :
    bytesRead s mid.length = (mid, { s with pos := s.pos + mid.length }) := by
  have hdrop : s.data.drop s.pos = mid ++ rest := by
    rw [hd, hp, List.append_assoc, List.drop_left]
  simp [bytesRead, hdrop, List.take_left]

theorem unpackBytes_spec (s : BStream) (pre mid rest : List Nat)
    (hd : s.data = pre ++ mid ++ rest) (hp : s.pos = pre.length) :
    unpackBytes mid.length s = .ok (mid, { s with pos := s.pos + mid.length }) := by
  simp [unpackBytes, bytesRead_spec s pre mid rest hd hp]

theorem unpackBytes_fail (s : BStream) (n : Nat) (hn : 0 < n)
    (h : s.data.length < s.pos + n) :
    unpackBytes n s = .error .structError := by
  have hlt : ((s.data.drop s.pos).take n).length ≠ n := by
    rw [List.length_take, List.length_drop]
    omega
  simp only [unpackBytes, bytesRead]
  rw [if_neg hlt]

theorem unpackLE_spec (s : BStream) (w v : Nat) (pre rest : List Nat)
    (hv : v < 256 ^ w)
    (hd : s.data = pre ++ encNat w v ++ rest) (hp : s.pos = pre.length) :
    unpackLE w s = .ok (v, { s with pos := s.pos + w }) := by
  have h := unpackBytes_spec s pre (encNat w v) rest hd hp
  rw [encNat_length] at h
  simp [unpackLE, rbind, h, rpure, leNat_encNat hv]

theorem toSigned_packIntW (w : Nat) (v : Int) (hw : 0 < w)
    (hlo : -(2 ^ (8 * w - 1)) ≤ v) (hhi : v < 2 ^ (8 * w - 1)) :
    toSigned w (v % (2 ^ (8 * w)) : Int).toNat = v := by
  have h8 : 8 * w = (8 * w - 1) + 1 := by omega
  have hpow : (2 : Int) ^ (8 * w) = 2 ^ (8 * w - 1) * 2 := by
    conv_lhs => rw [h8]
    rw [pow_succ]
  have hpow' : (2 : Nat) ^ (8 * w) = 2 ^ (8 * w - 1) * 2 := by
    conv_lhs => rw [h8]
    rw [pow_succ]
  have hcast : ((2 : Nat) ^ (8 * w - 1) : Int) = (2 : Int) ^ (8 * w - 1) := by
    push_cast; ring
  rcases le_or_lt 0 v with hpos | hneg
  · have hemod : v % (2 ^ (8 * w) : Int) = v := by
      apply Int.emod_eq_of_lt hpos
      omega
    rw [hemod]
    unfold toSigned
    rw [if_pos]
    · omega
    · omega
  · have h2 : (0 : Int) < 2 ^ (8 * w) := by positivity
    have h1 : (v + 2 ^ (8 * w) * 1) % (2 ^ (8 * w) : Int) = v % (2 ^ (8 * w) : Int) :=
      Int.add_mul_emod_self_left v (2 ^ (8 * w)) 1
    have hemod : v % (2 ^ (8 * w) : Int) = v + 2 ^ (8 * w) := by
      rw [← h1, mul_one]
      apply Int.emod_eq_of_lt <;> omega
    rw [hemod]
    unfold toSigned
    rw [if_neg]
    · omega
    · omega

theorem unpackLEInt_spec (s : BStream) (w : Nat) (v : Int) (pre rest : List Nat)
    (hw : 0 < w)
    (hlo : -(2 ^ (8 * w - 1)) ≤ v) (hhi : v < 2 ^ (8 * w - 1))
    (hd : s.data = pre ++ packIntW w v ++ rest) (hp : s.pos = pre.length) :
    unpackLEInt w s = .ok (v, { s with pos := s.pos + w }) := by
  have hlt : (v % (2 ^ (8 * w)) : Int).toNat < 256 ^ w := by
    have h2 : (0 : Int) < 2 ^ (8 * w) := by positivity
    have hb : v % (2 ^ (8 * w) : Int) < 2 ^ (8 * w) := Int.emod_lt_of_pos v h2
    have : ((256 : Nat) : Int) ^ w = (2 : Int) ^ (8 * w) := by
      rw [show ((256 : Nat) : Int) = (2 : Int) ^ 8 by norm_num, ← pow_mul]
    omega
  have h := unpackBytes_spec s pre (packIntW w v) rest hd hp
  rw [packIntW, encNat_length] at h
  simp [unpackLEInt, rbind, h, rpure]
  rw [leNat_encNat hlt]
  exact toSigned_packIntW w v hw hlo hhi

theorem readInt32_spec (s : BStream) (v : Int) (pre rest : List Nat)
    (hlo : -(2 ^ 31) ≤ v) (hhi : v < 2 ^ 31)
    (hd : s.data = pre ++ encInt32 v ++ rest) (hp : s.pos = pre.length) :
    readInt32 s = .ok (v, { s with pos := s.pos + 4 }) := by
  exact unpackLEInt_spec s 4 v pre rest (by norm_num) (by norm_num at hlo ⊢; omega)
    (by norm_num at hhi ⊢; omega) hd hp

theorem readBool_spec (s : BStream) (b : Bool) (pre rest : List Nat)
    (hd : s.data = pre ++ encInt32 (if b then 1 else 0) ++ rest)
    (hp : s.pos = pre.length) :
    readBool s = .ok (b, { s with pos := s.pos + 4 }) := by
  have h := readInt32_spec s (if b then 1 else 0) pre rest
    (by cases b <;> norm_num) (by cases b <;> norm_num) hd hp
  cases b <;> simp [readBool, rbind, h, rpure]


theorem rbind_ok {α β : Type} (f : Reader α) (g : α → Reader β) (s s' : BStream)
    (a : α) (h : f s = .ok (a, s')) : rbind f g s = g a s' := by
  simp [rbind, h]

theorem rbind_err {α β : Type} (f : Reader α) (g : α → Reader β) (s : BStream)
    (e : Err) (h : f s = .error e) : rbind f g s = .error e := by
  simp [rbind, h]

theorem mapChunksAux_fuel_irrel {α : Type} (g : List Nat → α) (w : Nat) :
    ∀ (f1 f2 : Nat) (bs : List Nat), bs.length ≤ f1 → bs.length ≤ f2 →
      mapChunksAux g w f1 bs = mapChunksAux g w f2 bs := by
  intro f1
  induction f1 with
  | zero =>
    intro f2 bs h1 h2
    have hbs : bs = [] := List.length_eq_zero.mp (by omega)
    subst hbs
    cases f2 <;> simp [mapChunksAux]
  | succ f1 ih =>
    intro f2 bs h1 h2
    cases bs with
    | nil =>
      cases f2 with
      | zero => simp [mapChunksAux]
      | succ m =>
        simp only [mapChunksAux]
        rw [if_pos (by simp; omega), if_pos (by simp; omega)]
    | cons b t =>
      obtain ⟨m, rfl⟩ : ∃ m, f2 = m + 1 := by
        cases f2 with
        | zero => simp at h2
        | succ m => exact ⟨m, rfl⟩
      by_cases hif : w = 0 ∨ (b :: t).length < w
      · simp only [mapChunksAux, if_pos hif]
      · simp only [mapChunksAux, if_neg hif]
        have hw : 0 < w := by
          rcases Nat.eq_zero_or_pos w with h | h
          · exact absurd (Or.inl h) hif
          · exact h
        have hlen : w ≤ (b :: t).length := by
          rcases Nat.lt_or_ge (b :: t).length w with h | h
          · exact absurd (Or.inr h) hif
          · exact h
        have hd : ((b :: t).drop w).length ≤ f1 := by
          rw [List.length_drop]
          simp at h1 ⊢
          omega
        have hd2 : ((b :: t).drop w).length ≤ m := by
          rw [List.length_drop]
          simp at h2 ⊢
          omega
        rw [ih m ((b :: t).drop w) hd hd2]

theorem mapChunks_nil {α : Type} (g : List Nat → α) (w : Nat) :
    mapChunks g w [] = [] := rfl

theorem mapChunks_short {α : Type} (g : List Nat → α) (w : Nat) (bs : List Nat)
    (hlen : bs.length < w) : mapChunks g w bs = [] := by
  cases bs with
  | nil => rfl
  | cons b t =>
    simp only [mapChunks, List.length_cons, mapChunksAux]
    rw [if_pos]
    right
    simpa using hlen

theorem mapChunks_cons {α : Type} (g : List Nat → α) (w : Nat) (bs : List Nat)
    (hw : 0 < w) (hlen : w ≤ bs.length) :
    mapChunks g w bs = g (bs.take w) :: mapChunks g w (bs.drop w) := by
  cases bs with
  | nil => simp at hlen; omega
  | cons b t =>
    have hlen' : w ≤ t.length + 1 := by simpa using hlen
    have hif : ¬ (w = 0 ∨ t.length + 1 < w) := by
      push_neg
      omega
    simp only [mapChunks, List.length_cons, mapChunksAux, if_neg hif]
    rw [mapChunksAux_fuel_irrel g w t.length ((b :: t).drop w).length ((b :: t).drop w)
      (by rw [List.length_drop]; simp; omega) (le_refl _)]

theorem mapChunks_length {α : Type} (g : List Nat → α) (w : Nat) (hw : 0 < w) :
    ∀ (n : Nat) (bs : List Nat), bs.length = w * n → (mapChunks g w bs).length = n := by
  intro n
  induction n with
  | zero =>
    intro bs hlen
    have : bs = [] := List.length_eq_zero.mp (by omega)
    simp [this, mapChunks_nil]
  | succ n ih =>
    intro bs hlen
    have hwle : w ≤ bs.length := by
      have : w * (n + 1) = w * n + w := by ring
      omega
    rw [mapChunks_cons g w bs hw hwle]
    have hdroplen : (bs.drop w).length = w * n := by
      rw [List.length_drop]
      have : w * (n + 1) = w * n + w := by ring
      omega
    simp [ih (bs.drop w) hdroplen]

theorem readTArrayN_chunks {α : Type} (f : Reader α) (g : List Nat → α) (k : Nat)
    (hk : 0 < k)
    (hf : ∀ t : BStream, t.pos + k ≤ t.data.length →
      f t = .ok (g ((t.data.drop t.pos).take k), { t with pos := t.pos + k })) :
    ∀ (n : Nat) (s : BStream) (pre payload rest : List Nat),
      s.data = pre ++ payload ++ rest → s.pos = pre.length →
      payload.length = k * n →
      readTArrayN f n s =
        .ok (mapChunks g k payload, { s with pos := s.pos + k * n }) := by
  intro n
  induction n with
  | zero =>
    intro s pre payload rest hd hp hlen
    have hpayload : payload = [] := List.length_eq_zero.mp (by omega)
    subst hpayload
    simp [readTArrayN, rpure, mapChunks_nil]
  | succ n ih =>
    intro s pre payload rest hd hp hlen
    have hmul : k * (n + 1) = k * n + k := by ring
    have hkle : k ≤ payload.length := by omega
    have hdrop : s.data.drop s.pos = payload ++ rest := by
      rw [hd, hp, List.append_assoc, List.drop_left]
    have htake : (s.data.drop s.pos).take k = payload.take k := by
      rw [hdrop, List.take_append_of_le_length hkle]
    have hbound : s.pos + k ≤ s.data.length := by
      rw [hd, hp]
      simp [List.length_append]
      omega
    have hstep := hf s hbound
    rw [htake] at hstep
    have htakelen : (payload.take k).length = k := by
      rw [List.length_take]
      omega
    have hih := ih { s with pos := s.pos + k } (pre ++ payload.take k)
      (payload.drop k) rest
      (by
        simp only []
        rw [hd, List.append_assoc, ← List.take_append_drop k payload]
        simp [List.append_assoc])
      (by simp [List.length_append, htakelen, hp])
      (by rw [List.length_drop]; omega)
    simp only [readTArrayN]
    rw [rbind_ok _ _ _ _ _ hstep, rbind_ok _ _ _ _ _ hih]
    rw [mapChunks_cons g k payload hk hkle]
    simp [rpure, hmul]
    omega

/-- `readTArray` over a stream laid out as count `n` then `n` fixed-width
elements. -/
theorem readTArray_chunks {α : Type} (f : Reader α) (g : List Nat → α) (k : Nat)
    (hk : 0 < k)
    (hf : ∀ t : BStream, t.pos + k ≤ t.data.length →
      f t = .ok (g ((t.data.drop t.pos).take k), { t with pos := t.pos + k }))
    (n : Nat) (hn : (n : Int) < 2 ^ 31) (s : BStream) (pre payload rest : List Nat)
    (hd : s.data = pre ++ encInt32 (n : Int) ++ payload ++ rest)
    (hp : s.pos = pre.length) (hlen : payload.length = k * n) :
    readTArray f s =
      .ok (mapChunks g k payload, { s with pos := s.pos + 4 + k * n }) := by
  have hi32 := readInt32_spec s (n : Int) pre (payload ++ rest)
    (by omega) hn (by rw [hd]; simp [List.append_assoc]) hp
  have harr := readTArrayN_chunks f g k hk hf n { s with pos := s.pos + 4 }
    (pre ++ encInt32 (n : Int)) payload rest
    (by simp [hd, List.append_assoc])
    (by simp [List.length_append, encInt32, packIntW, encNat_length, hp])
    hlen
  simp only [readTArray]
  rw [rbind_ok _ _ _ _ _ hi32]
  rw [Int.toNat_natCast]
  rw [harr]

theorem unpackBytes_ok_of_le (t : BStream) (n : Nat) (h : t.pos + n ≤ t.data.length) :
    unpackBytes n t = .ok ((t.data.drop t.pos).take n, { t with pos := t.pos + n }) := by
  have hlen : ((t.data.drop t.pos).take n).length = n := by
    rw [List.length_take, List.length_drop]
    omega
  simp only [unpackBytes, bytesRead]
  rw [if_pos hlen, hlen]

theorem unpackLE_hf (w : Nat) : ∀ t : BStream, t.pos + w ≤ t.data.length →
    unpackLE w t = .ok (leNat ((t.data.drop t.pos).take w), { t with pos := t.pos + w }) := by
  intro t h
  simp only [unpackLE]
  rw [rbind_ok _ _ _ _ _ (unpackBytes_ok_of_le t w h)]
  rfl

theorem readByteToInt_hf : ∀ t : BStream, t.pos + 1 ≤ t.data.length →
    readByteToInt 1 t = .ok (leNat ((t.data.drop t.pos).take 1), { t with pos := t.pos + 1 }) := by
  intro t h
  have hlen : ((t.data.drop t.pos).take 1).length = 1 := by
    rw [List.length_take, List.length_drop]
    omega
  simp only [readByteToInt, bytesRead]
  rw [hlen]

theorem mapChunks_leNat_one : ∀ bs : List Nat, mapChunks leNat 1 bs = bs := by
  intro bs
  induction bs with
  | nil => exact mapChunks_nil _ _
  | cons b t ih =>
    rw [mapChunks_cons _ _ _ (by norm_num) (by simp)]
    simp [leNat, ih]

/-- Self-check success: if every element consumes exactly the declared
`k` bytes, `readBulkTArray` returns the `n` chunk-decoded elements in
order. -/
theorem readBulkTArray_ok {α : Type} (f : Reader α) (g : List Nat → α) (k : Nat)
    (hk : 0 < k) (hk31 : (k : Int) < 2 ^ 31)
    (hf : ∀ t : BStream, t.pos + k ≤ t.data.length →
      f t = .ok (g ((t.data.drop t.pos).take k), { t with pos := t.pos + k }))
    (n : Nat) (hn : (n : Int) < 2 ^ 31) (s : BStream) (pre payload rest : List Nat)
    (hd : s.data = pre ++ encInt32 (k : Int) ++ encInt32 (n : Int) ++ payload ++ rest)
    (hp : s.pos = pre.length) (hlen : payload.length = k * n) :
    readBulkTArray f s =
      .ok (mapChunks g k payload, { s with pos := s.pos + 8 + k * n }) := by
  have hes := readInt32_spec s (k : Int) pre (encInt32 (n : Int) ++ payload ++ rest)
    (by omega) hk31 (by rw [hd]; simp [List.append_assoc]) hp
  have harr := readTArray_chunks f g k hk hf n hn { s with pos := s.pos + 4 }
    (pre ++ encInt32 (k : Int)) payload rest
    (by simp [hd, List.append_assoc])
    (by simp [List.length_append, encInt32, packIntW, encNat_length, hp])
    hlen
  have hcount := mapChunks_length g k hk n payload hlen
  simp only [readBulkTArray]
  rw [rbind_ok _ _ _ _ _ hes]
  rw [harr]
  simp only [hcount]
  rw [if_pos (by push_cast; ring)]

/-- Self-check failure: a declared element size different from the `k`
bytes each element actually consumes raises the size-mismatch error; note
the recorded consumed-bytes figure `4 + k*n` includes the 4-byte count
field. -/
theorem readBulkTArray_mismatch {α : Type} (f : Reader α) (g : List Nat → α) (k : Nat)
    (hk : 0 < k)
    (hf : ∀ t : BStream, t.pos + k ≤ t.data.length →
      f t = .ok (g ((t.data.drop t.pos).take k), { t with pos := t.pos + k }))
    (es : Int) (heslo : -(2 ^ 31) ≤ es) (heshi : es < 2 ^ 31) (hne : es ≠ (k : Int))
    (n : Nat) (hn0 : 0 < n) (hn : (n : Int) < 2 ^ 31) (s : BStream)
    (pre payload rest : List Nat)
    (hd : s.data = pre ++ encInt32 es ++ encInt32 (n : Int) ++ payload ++ rest)
    (hp : s.pos = pre.length) (hlen : payload.length = k * n) :
    readBulkTArray f s =
      .error (.rawArraySizeMismatch es ((4 : Int) + k * n) n) := by
  have hes := readInt32_spec s es pre (encInt32 (n : Int) ++ payload ++ rest)
    heslo heshi (by rw [hd]; simp [List.append_assoc]) hp
  have harr := readTArray_chunks f g k hk hf n hn { s with pos := s.pos + 4 }
    (pre ++ encInt32 es) payload rest
    (by simp [hd, List.append_assoc])
    (by simp [List.length_append, encInt32, packIntW, encNat_length, hp])
    hlen
  have hcount := mapChunks_length g k hk n payload hlen
  simp only [readBulkTArray]
  rw [rbind_ok _ _ _ _ _ hes]
  rw [harr]
  simp only [hcount]
  rw [if_neg (by
    intro hcontra
    apply hne
    have hn' : (0 : Int) < (n : Int) := by exact_mod_cast hn0
    have : (n : Int) * (k : Int) = (n : Int) * es := by push_cast at hcontra ⊢; nlinarith [hcontra]
    exact (mul_left_cancel₀ (by omega) this).symm)]
  have hdiff : ((s.pos + 4 + 4 + k * n : Nat) : Int) - ((s.pos + 4 : Nat) : Int) =
      (4 : Int) + k * n := by push_cast; ring
  rw [hdiff]

theorem writeBytes_mkEmpty (bs : List Nat) : (writeBytes (mkBStream []) bs).data = bs := by
  simp [writeBytes, mkBStream]

theorem unpackLE_packIntW (w : Nat) (v : Int) (h0 : 0 ≤ v)
    (hv : v < 2 ^ (8 * w)) :
    unpackLE w (mkBStream (packIntW w v)) =
      .ok (v.toNat, { mkBStream (packIntW w v) with pos := w }) := by
  have hemod : (v % (2 ^ (8 * w) : Int)).toNat = v.toNat := by
    rw [Int.emod_eq_of_lt h0 hv]
  have hcast : ((256 : Nat) : Int) ^ w = (2 : Int) ^ (8 * w) := by
    rw [show ((256 : Nat) : Int) = (2 : Int) ^ 8 by norm_num, ← pow_mul]
  have hlt : v.toNat < 256 ^ w := by
    omega
  have h := unpackLE_spec (mkBStream (packIntW w v)) w v.toNat [] []
    hlt (by simp [mkBStream, packIntW, hemod]) rfl
  simpa [mkBStream] using h

theorem unpackLE_encNat (w v : Nat) (hv : v < 256 ^ w) :
    unpackLE w (mkBStream (encNat w v)) =
      .ok (v, { mkBStream (encNat w v) with pos := w }) := by
  have h := unpackLE_spec (mkBStream (encNat w v)) w v [] [] hv
    (by simp [mkBStream]) rfl
  simpa [mkBStream] using h

theorem unpackLEInt_packIntW (w : Nat) (hw : 0 < w) (v : Int)
    (hlo : -(2 ^ (8 * w - 1)) ≤ v) (hhi : v < 2 ^ (8 * w - 1)) :
    unpackLEInt w (mkBStream (packIntW w v)) =
      .ok (v, { mkBStream (packIntW w v) with pos := w }) := by
  have h := unpackLEInt_spec (mkBStream (packIntW w v)) w v [] [] hw hlo hhi
    (by simp [mkBStream]) rfl
  simpa [mkBStream] using h

/-- C10: for every stream whose next four bytes decode to a negative signed
32-bit count, `readTArray` returns the empty sequence having consumed
exactly the four count bytes; this holds for every element decoder `f`
uniformly, so the decoder is invoked zero times, and no error is raised. -/
theorem c10_readTArray_negative_count {α : Type} (f : Reader α) (L : Int)
    (hneg : L < 0) (hlo : -(2 ^ 31) ≤ L) (s : BStream) (pre rest : List Nat)
    (hd : s.data = pre ++ encInt32 L ++ rest) (hp : s.pos = pre.length) :
    readTArray f s = .ok ([], { s with pos := s.pos + 4 }) := by
  have hi32 := readInt32_spec s L pre rest hlo (by omega) hd hp
  simp only [readTArray]
  rw [rbind_ok _ _ _ _ _ hi32]
  have htn : L.toNat = 0 := by omega
  rw [htn]
  rfl

/-- Witness for C10 at the concrete count -5 with `readUInt8` elements. -/
theorem c10_witness :
    readTArray readUInt8 (mkBStream (encInt32 (-5))) =
      .ok (([] : List Nat), { mkBStream (encInt32 (-5)) with pos := 4 }) := by
  have h := c10_readTArray_negative_count readUInt8 (-5) (by norm_num) (by norm_num)
    (mkBStream (encInt32 (-5))) [] [] (by simp [mkBStream]) rfl
  simpa [mkBStream] using h

/-- C6: rebinding a stream of recorded size `A` to a second stream of size
`B` via `change_stream` makes the fake size `A + B`; the fake position at
the start of the second segment equals `A`, and in general `tellfake`
equals `A` plus the physical cursor, advancing 1:1 with every physical
read. -/
theorem c6_segmented_addressing (a b : BStream) :
    (change_stream a b).fake_size = a.size + b.size
    ∧ (b.pos = 0 → tellfake (change_stream a b) = a.size)
    ∧ (∀ p : Nat, tellfake { change_stream a b with pos := p } = a.size + (p : Int))
    ∧ (∀ n : Nat, tellfake ((bytesRead (change_stream a b) n).2) =
        tellfake (change_stream a b) + (((bytesRead (change_stream a b) n).1).length : Int)) := by
  refine ⟨rfl, ?_, ?_, ?_⟩
  · intro h
    simp only [tellfake, change_stream, h]
    ring
  · intro p
    simp only [tellfake, change_stream]
    ring
  · intro n
    simp only [tellfake, change_stream, bytesRead]
    push_cast
    ring

/-- Witness for C6: sizes 3 and 2 give fake size 5 and starting fake
position 3. -/
theorem c6_witness :
    (change_stream (mkBStream [1, 2, 3]) (mkBStream [4, 5])).fake_size = 5
    ∧ tellfake (change_stream (mkBStream [1, 2, 3]) (mkBStream [4, 5])) = 3 := by
  have h := c6_segmented_addressing (mkBStream [1, 2, 3]) (mkBStream [4, 5])
  refine ⟨?_, ?_⟩
  · rw [h.1]
    decide
  · rw [h.2.1 rfl]
    decide

/-- C7 counterexample: a read past the declared size does NOT always fail —
`readUInt8` (via `readByteToInt` / `int.from_bytes`) at the very end of an
empty stream silently returns 0 with no error, contradicting "attempting to
consume bytes beyond position S fails with a decode error rather than
silently returning short or empty data". -/
theorem c7_counterexample :
    readUInt8 (mkBStream []) = .ok (0, mkBStream []) := by decide

/-- C7 amended: only the `struct.unpack`-based fixed-width reads (16/32/64
bit integers, floats, wide booleans) fail with a decode (`struct.error`)
failure when fewer bytes remain than their width; the byte-level reads
(`readByteToInt`, hence `readUInt8`/`readInt8`) silently return the
little-endian value of however many bytes remain; and the cursor itself
never exceeds the data length. -/
theorem c7_amended_bounds (s : BStream) :
    (s.data.length < s.pos + 2 →
      readUInt16 s = .error .structError ∧ readInt16 s = .error .structError)
    ∧ (s.data.length < s.pos + 4 →
      readUInt32 s = .error .structError ∧ readInt32 s = .error .structError ∧
      readFloat s = .error .structError ∧ readBool s = .error .structError)
    ∧ (s.data.length < s.pos + 8 →
      readUInt64 s = .error .structError ∧ readInt64 s = .error .structError)
    ∧ readByteToInt 1 s = .ok (leNat ((s.data.drop s.pos).take 1),
        { s with pos := s.pos + ((s.data.drop s.pos).take 1).length })
    ∧ (s.pos ≤ s.data.length → ∀ n : Nat, ((bytesRead s n).2).pos ≤ s.data.length) := by
  refine ⟨?_, ?_, ?_, rfl, ?_⟩
  · intro h
    have h2 := unpackBytes_fail s 2 (by norm_num) h
    exact ⟨rbind_err _ _ _ _ h2, rbind_err _ _ _ _ h2⟩
  · intro h
    have h4 := unpackBytes_fail s 4 (by norm_num) h
    have hi32 : readInt32 s = .error .structError := rbind_err _ _ _ _ h4
    exact ⟨rbind_err _ _ _ _ h4, hi32, rbind_err _ _ _ _ h4, rbind_err _ _ _ _ hi32⟩
  · intro h
    have h8 := unpackBytes_fail s 8 (by norm_num) h
    exact ⟨rbind_err _ _ _ _ h8, rbind_err _ _ _ _ h8⟩
  · intro hle n
    simp only [bytesRead, List.length_take, List.length_drop]
    omega

/-- Witness for C7's amended theorem: a 2-byte stream fails a 4-byte read
with `struct.error`. -/
theorem c7_amended_witness :
    readUInt32 (mkBStream [1, 2]) = .error .structError :=
  ((c7_amended_bounds (mkBStream [1, 2])).2.1 (by decide)).1

/-- C4 counterexample: the write path does NOT mirror the read path for the
wide boolean or the short string.  `writeBool` (`pack('?', v)`) emits a
single byte while `readBool` consumes a 4-byte int32, so decoding what
`writeBool` produced raises `struct.error` instead of returning the value.
`writeString` emits a 2-byte `writeUInt16` length prefix while `readString`
reads a 1-byte length, so the round trip of the one-byte string `[65]`
("A") returns `[0]` (the high length byte decoded as a NUL character), not
`[65]`. -/
theorem c4_counterexample :
    readBool (mkBStream ((writeBool (mkBStream []) true).data)) = .error .structError
    ∧ readString (mkBStream ((writeString (mkBStream []) [65]).data)) =
        .ok ([0], { mkBStream [1, 0, 65] with pos := 2 }) := by
  constructor
  · decide
  · decide

/-- C4 amended: `decode(encode(v)) = v` holds for the 16/32/64-bit signed
and unsigned integer kinds for every in-range `v`, and for the single and
double floats at the level of their 32- and 64-bit IEEE-754 bit patterns
(the writers emit exactly the pattern bytes the readers consume); but not
for the wide boolean (whose writer emits one byte against the reader's
four) — the short string writer likewise emits a 2-byte length against the
reader's 1-byte length. -/
theorem c4_amended_roundtrip :
    (∀ v : Int, -(2 ^ 15) ≤ v → v < 2 ^ 15 →
      readInt16 (mkBStream ((writeInt16 (mkBStream []) v).data)) =
        .ok (v, { mkBStream ((writeInt16 (mkBStream []) v).data) with pos := 2 }))
    ∧ (∀ v : Int, 0 ≤ v → v < 2 ^ 16 →
      readUInt16 (mkBStream ((writeUInt16 (mkBStream []) v).data)) =
        .ok (v.toNat, { mkBStream ((writeUInt16 (mkBStream []) v).data) with pos := 2 }))
    ∧ (∀ v : Int, -(2 ^ 31) ≤ v → v < 2 ^ 31 →
      readInt32 (mkBStream ((writeInt32 (mkBStream []) v).data)) =
        .ok (v, { mkBStream ((writeInt32 (mkBStream []) v).data) with pos := 4 }))
    ∧ (∀ v : Int, 0 ≤ v → v < 2 ^ 32 →
      readUInt32 (mkBStream ((writeUInt32 (mkBStream []) v).data)) =
        .ok (v.toNat, { mkBStream ((writeUInt32 (mkBStream []) v).data) with pos := 4 }))
    ∧ (∀ v : Int, -(2 ^ 63) ≤ v → v < 2 ^ 63 →
      readInt64 (mkBStream ((writeInt64 (mkBStream []) v).data)) =
        .ok (v, { mkBStream ((writeInt64 (mkBStream []) v).data) with pos := 8 }))
    ∧ (∀ v : Int, 0 ≤ v → v < 2 ^ 64 →
      readUInt64 (mkBStream ((writeUInt64 (mkBStream []) v).data)) =
        .ok (v.toNat, { mkBStream ((writeUInt64 (mkBStream []) v).data) with pos := 8 }))
    ∧ (∀ v : Nat, v < 2 ^ 32 →
      readFloat (mkBStream ((writeFloat (mkBStream []) v).data)) =
        .ok (v, { mkBStream ((writeFloat (mkBStream []) v).data) with pos := 4 }))
    ∧ (∀ v : Nat, v < 2 ^ 64 →
      readDouble (mkBStream ((writeDouble (mkBStream []) v).data)) =
        .ok (v, { mkBStream ((writeDouble (mkBStream []) v).data) with pos := 8 }))
    ∧ (∀ b : Bool, readBool (mkBStream ((writeBool (mkBStream []) b).data)) =
        .error .structError) := by
  refine ⟨?_, ?_, ?_, ?_, ?_, ?_, ?_, ?_, ?_⟩
  · intro v h1 h2
    rw [show (writeInt16 (mkBStream []) v).data = packIntW 2 v from writeBytes_mkEmpty _]
    exact unpackLEInt_packIntW 2 (by norm_num) v (by norm_num at h1 ⊢; omega)
      (by norm_num at h2 ⊢; omega)
  · intro v h1 h2
    rw [show (writeUInt16 (mkBStream []) v).data = packIntW 2 v from writeBytes_mkEmpty _]
    exact unpackLE_packIntW 2 v h1 (by norm_num at h2 ⊢; omega)
  · intro v h1 h2
    rw [show (writeInt32 (mkBStream []) v).data = packIntW 4 v from writeBytes_mkEmpty _]
    exact unpackLEInt_packIntW 4 (by norm_num) v (by norm_num at h1 ⊢; omega)
      (by norm_num at h2 ⊢; omega)
  · intro v h1 h2
    rw [show (writeUInt32 (mkBStream []) v).data = packIntW 4 v from writeBytes_mkEmpty _]
    exact unpackLE_packIntW 4 v h1 (by norm_num at h2 ⊢; omega)
  · intro v h1 h2
    rw [show (writeInt64 (mkBStream []) v).data = packIntW 8 v from writeBytes_mkEmpty _]
    exact unpackLEInt_packIntW 8 (by norm_num) v (by norm_num at h1 ⊢; omega)
      (by norm_num at h2 ⊢; omega)
  · intro v h1 h2
    rw [show (writeUInt64 (mkBStream []) v).data = packIntW 8 v from writeBytes_mkEmpty _]
    exact unpackLE_packIntW 8 v h1 (by norm_num at h2 ⊢; omega)
  · intro v hv
    rw [show (writeFloat (mkBStream []) v).data = encNat 4 v from writeBytes_mkEmpty _]
    exact unpackLE_encNat 4 v (by norm_num at hv ⊢; omega)
  · intro v hv
    rw [show (writeDouble (mkBStream []) v).data = encNat 8 v from writeBytes_mkEmpty _]
    exact unpackLE_encNat 8 v (by norm_num at hv ⊢; omega)
  · intro b
    cases b <;> decide

/-- Witness for C4's amended theorem at concrete values, including the
single float at the bit pattern of 1.0f. -/
theorem c4_amended_witness :
    readInt16 (mkBStream ((writeInt16 (mkBStream []) (-12345)).data)) =
      .ok (-12345, { mkBStream ((writeInt16 (mkBStream []) (-12345)).data) with pos := 2 })
    ∧ readUInt64 (mkBStream ((writeUInt64 (mkBStream []) 123456789).data)) =
      .ok ((123456789 : Int).toNat,
        { mkBStream ((writeUInt64 (mkBStream []) 123456789).data) with pos := 8 })
    ∧ readFloat (mkBStream ((writeFloat (mkBStream []) 1065353216).data)) =
      .ok (1065353216,
        { mkBStream ((writeFloat (mkBStream []) 1065353216).data) with pos := 4 }) :=
  ⟨c4_amended_roundtrip.1 (-12345) (by norm_num) (by norm_num),
   c4_amended_roundtrip.2.2.2.2.2.1 123456789 (by norm_num) (by norm_num),
   c4_amended_roundtrip.2.2.2.2.2.2.1 1065353216 (by norm_num)⟩

/-- C2 counterexample: the size-mismatch error does not name the observed
per-element size.  Two `readUInt16` elements (2 bytes each) decoded with a
declared size of 4 raise the mismatch error; the figure interpolated as
"serialized" in its message is `(self.tell() - save_pos) / len(array)`
= `8 / 2 = 4` — `save_pos` precedes the 4-byte count field, so the quotient
equals the declared size 4, not the observed per-element size 2. -/
theorem c2_counterexample :
    readBulkTArray readUInt16 (mkBStream (encInt32 4 ++ encInt32 2 ++ [1, 0, 2, 0])) =
      .error (.rawArraySizeMismatch 4 8 2)
    ∧ ((8 : Int) / 2 = 4 ∧ (8 : Int) / 2 ≠ 2) := by
  constructor
  · decide
  · decide

/-- C2 amended: with each element consuming exactly `k` bytes, a declared
size equal to `k` succeeds returning the `n` elements in decode order,
while any other declared size (with `n > 0`) raises the size-mismatch
error naming the declared size; the consumed-bytes figure it carries is
`4 + k·n`, which includes the 4-byte count field, so the per-element
"serialized" quotient in the message overstates the observed size by
`4/n`. -/
theorem c2_amended_bulk_self_check {α : Type} (f : Reader α) (g : List Nat → α)
    (k : Nat) (hk : 0 < k)
    (hf : ∀ t : BStream, t.pos + k ≤ t.data.length →
      f t = .ok (g ((t.data.drop t.pos).take k), { t with pos := t.pos + k }))
    (es : Int) (heslo : -(2 ^ 31) ≤ es) (heshi : es < 2 ^ 31)
    (n : Nat) (hn : (n : Int) < 2 ^ 31) (s : BStream) (pre payload rest : List Nat)
    (hd : s.data = pre ++ encInt32 es ++ encInt32 (n : Int) ++ payload ++ rest)
    (hp : s.pos = pre.length) (hlen : payload.length = k * n) :
    (es = (k : Int) →
      readBulkTArray f s =
        .ok (mapChunks g k payload, { s with pos := s.pos + 8 + k * n }))
    ∧ (es ≠ (k : Int) → 0 < n →
      readBulkTArray f s =
        .error (.rawArraySizeMismatch es ((4 : Int) + k * n) n)) := by
  constructor
  · intro hes
    subst hes
    exact readBulkTArray_ok f g k hk heshi hf n hn s pre payload rest hd hp hlen
  · intro hne hn0
    exact readBulkTArray_mismatch f g k hk hf es heslo heshi hne n hn0 hn s
      pre payload rest hd hp hlen

/-- Witness for C2's amended theorem: two 16-bit elements with the correct
declared size 2 decode to `[1, 2]`. -/
theorem c2_amended_witness :
    readBulkTArray readUInt16 (mkBStream (encInt32 2 ++ encInt32 2 ++ [1, 0, 2, 0])) =
      .ok ([1, 2],
        { mkBStream (encInt32 2 ++ encInt32 2 ++ [1, 0, 2, 0]) with pos := 12 }) := by
  have h := (c2_amended_bulk_self_check readUInt16 leNat 2 (by norm_num)
    (fun t ht => by simpa [readUInt16] using unpackLE_hf 2 t ht)
    2 (by norm_num) (by norm_num) 2 (by norm_num)
    (mkBStream (encInt32 2 ++ encInt32 2 ++ [1, 0, 2, 0])) [] [1, 0, 2, 0] []
    (by simp [mkBStream]) rfl (by decide)).1 rfl
  rw [h]
  have hmc : mapChunks leNat 2 [1, 0, 2, 0] = [1, 2] := by
    rw [mapChunks_cons _ _ _ (by norm_num) (by norm_num)]
    rw [show List.drop 2 [1, 0, 2, 0] = [2, 0] from rfl]
    rw [mapChunks_cons _ _ _ (by norm_num) (by norm_num)]
    simp [mapChunks_nil, leNat]
  rw [hmc]
  decide

/-- C3: `readFName` reads two 4-byte integers (name-table index, then
instance number); given both are available it succeeds iff
`0 ≤ index < len(NameMap)`, returning the table string at the index
together with the original index and the instance number; every
out-of-range index raises immediately, with both the offending index and
the table length interpolated into the error message. -/
theorem c3_readFName_bounds (s : BStream) (idx num : Int) (pre rest : List Nat)
    (hlo : -(2 ^ 31) ≤ idx) (hhi : idx < 2 ^ 31)
    (nlo : -(2 ^ 31) ≤ num) (nhi : num < 2 ^ 31)
    (hd : s.data = pre ++ encInt32 idx ++ encInt32 num ++ rest)
    (hp : s.pos = pre.length) :
    ((∃ r t, readFName s = .ok (r, t)) ↔ 0 ≤ idx ∧ idx < (s.nameMap.length : Int))
    ∧ (∀ h : 0 ≤ idx ∧ idx < (s.nameMap.length : Int),
        readFName s = .ok (⟨s.nameMap.get ⟨idx.toNat, by omega⟩, idx, num⟩,
          { s with pos := s.pos + 8 }))
    ∧ (¬ (0 ≤ idx ∧ idx < (s.nameMap.length : Int)) →
        ∃ m1 m2 m3 : String, readFName s =
          .error (.indexError
            (m1 ++ toString idx ++ m2 ++ toString s.nameMap.length ++ m3))) := by
  have h1 := readInt32_spec s idx pre (encInt32 num ++ rest) hlo hhi
    (by rw [hd]; simp [List.append_assoc]) hp
  have h2 := readInt32_spec { s with pos := s.pos + 4 } num (pre ++ encInt32 idx) rest
    nlo nhi (by simp [hd, List.append_assoc])
    (by simp [List.length_append, encInt32, packIntW, encNat_length, hp])
  have hsucc : ∀ h : 0 ≤ idx ∧ idx < (s.nameMap.length : Int),
      readFName s = .ok (⟨s.nameMap.get ⟨idx.toNat, by omega⟩, idx, num⟩,
        { s with pos := s.pos + 8 }) := by
    intro h
    simp only [readFName]
    rw [rbind_ok _ _ _ _ _ h1, rbind_ok _ _ _ _ _ h2]
    rw [dif_pos (show 0 ≤ idx ∧ idx < _ from ⟨h.1, by simpa using h.2⟩)]
  have herr : ¬ (0 ≤ idx ∧ idx < (s.nameMap.length : Int)) →
      readFName s = .error
        (.indexError (badNameIndexMsg idx s.nameMap.length (s.pos + 8))) := by
    intro h
    simp only [readFName]
    rw [rbind_ok _ _ _ _ _ h1, rbind_ok _ _ _ _ _ h2]
    rw [dif_neg (show ¬ _ from fun hc => h ⟨hc.1, by simpa using hc.2⟩)]
  refine ⟨⟨?_, ?_⟩, hsucc, fun h =>
    ⟨"Bad Name Index: ", "/", " - Reader Position: " ++ toString (s.pos + 8), by
      rw [herr h]
      simp [badNameIndexMsg, String.append_assoc]⟩⟩
  · rintro ⟨r, t, hok⟩
    by_contra hc
    rw [herr hc] at hok
    exact absurd hok (by simp)
  · intro h
    exact ⟨_, _, hsucc h⟩

/-- Witness for C3 at a concrete two-entry name table with index 1,
instance number 7. -/
theorem c3_witness :
    readFName { mkBStream (encInt32 1 ++ encInt32 7) with nameMap := ["Alpha", "Beta"] } =
      .ok (⟨"Beta", 1, 7⟩,
        { mkBStream (encInt32 1 ++ encInt32 7) with nameMap := ["Alpha", "Beta"], pos := 8 }) := by
  have h := (c3_readFName_bounds
    { mkBStream (encInt32 1 ++ encInt32 7) with nameMap := ["Alpha", "Beta"] }
    1 7 [] [] (by norm_num) (by norm_num) (by norm_num) (by norm_num)
    (by simp [mkBStream]) rfl).2.1 ⟨by norm_num, by norm_num⟩
  simpa [mkBStream] using h

theorem encUnits_length (w : Nat) : ∀ us : List Nat, (encUnits w us).length = w * us.length := by
  intro us
  induction us with
  | nil => simp [encUnits]
  | cons u t ih =>
    simp [encUnits, List.length_append, encNat_length, ih]
    ring

theorem mapChunks_encUnits (w : Nat) (hw : 0 < w) :
    ∀ us : List Nat, (∀ u ∈ us, u < 256 ^ w) →
      mapChunks leNat w (encUnits w us) = us := by
  intro us
  induction us with
  | nil => intro _; simp [encUnits, mapChunks_nil]
  | cons u t ih =>
    intro hb
    have hlen : (encNat w u).length = w := encNat_length w u
    rw [show encUnits w (u :: t) = encNat w u ++ encUnits w t from rfl]
    rw [mapChunks_cons _ _ _ hw (by rw [List.length_append, hlen]; omega)]
    rw [List.take_left' hlen, List.drop_left' hlen]
    rw [leNat_encNat (hb u (by simp))]
    rw [ih (fun x hx => hb x (by simp [hx]))]

/-- C1: `readFString` reads a 4-byte signed length `L`; if `L > 0` it
consumes `L` payload bytes, drops the last as a null terminator and returns
the UTF-8 decoding of the first `L - 1`; if `L = 0` it returns the empty
string consuming only the 4 length bytes; if `L < 0` and
`L ≠ -2^31` it consumes `-L` little-endian 16-bit code units, drops the
last as terminator and returns exactly one character per remaining unit;
if `L = -2^31` it raises the corruption error. -/
theorem c1_readFString_cases (s : BStream) (L : Int) (pre rest : List Nat)
    (hlo : -(2 ^ 31) ≤ L) (hhi : L < 2 ^ 31) :
    (∀ payload cps, 0 < L → payload.length = L.toNat →
      s.data = pre ++ encInt32 L ++ payload ++ rest → s.pos = pre.length →
      utf8Decode payload.dropLast = some cps →
      readFString s = .ok (cps, { s with pos := s.pos + 4 + L.toNat }))
    ∧ (L = 0 → s.data = pre ++ encInt32 L ++ rest → s.pos = pre.length →
      readFString s = .ok ([], { s with pos := s.pos + 4 }))
    ∧ (∀ units : List Nat, L < 0 → L ≠ -2147483648 →
      units.length = (-L).toNat → (∀ u ∈ units, u < 2 ^ 16) →
      s.data = pre ++ encInt32 L ++ encUnits 2 units ++ rest → s.pos = pre.length →
      readFString s = .ok (units.dropLast,
        { s with pos := s.pos + 4 + 2 * (-L).toNat }))
    ∧ (L = -2147483648 → s.data = pre ++ encInt32 L ++ rest → s.pos = pre.length →
      readFString s = .error .archiveCorrupted) := by
  refine ⟨?_, ?_, ?_, ?_⟩
  · intro payload cps hL hlen hd hp hdec
    have h1 := readInt32_spec s L pre (payload ++ rest) hlo hhi
      (by rw [hd]; simp [List.append_assoc]) hp
    have hbr := bytesRead_spec { s with pos := s.pos + 4 } (pre ++ encInt32 L)
      payload rest (by simp [hd, List.append_assoc])
      (by simp [List.length_append, encInt32, packIntW, encNat_length, hp])
    rw [hlen] at hbr
    simp only [readFString]
    rw [rbind_ok _ _ _ _ _ h1]
    rw [if_neg (by omega)]
    rw [if_neg (by rw [if_neg (show ¬ L < 0 by omega)]; omega)]
    rw [if_neg (show ¬ L < 0 by omega)]
    rw [hbr]
    simp only [hdec]
  · intro hL hd hp
    have h1 := readInt32_spec s L pre rest hlo hhi hd hp
    simp only [readFString]
    rw [rbind_ok _ _ _ _ _ h1]
    rw [if_neg (by omega)]
    rw [if_pos (by rw [if_neg (show ¬ L < 0 by omega)]; omega)]
  · intro units hL hmin hlen hb hd hp
    have h1 := readInt32_spec s L pre (encUnits 2 units ++ rest) hlo hhi
      (by rw [hd]; simp [List.append_assoc]) hp
    have harr := readTArrayN_chunks readUInt16 leNat 2 (by norm_num)
      (fun t ht => unpackLE_hf 2 t ht) (-L).toNat { s with pos := s.pos + 4 }
      (pre ++ encInt32 L) (encUnits 2 units) rest
      (by simp [hd, List.append_assoc])
      (by simp [List.length_append, encInt32, packIntW, encNat_length, hp])
      (by rw [encUnits_length, hlen])
    rw [mapChunks_encUnits 2 (by norm_num) units
      (by intro u hu; have := hb u hu; norm_num at this ⊢; omega)] at harr
    simp only [readFString]
    rw [rbind_ok _ _ _ _ _ h1]
    rw [if_neg (by omega)]
    rw [if_neg (by rw [if_pos (show L < 0 by omega)]; omega)]
    rw [if_pos (show L < 0 by omega)]
    rw [rbind_ok _ _ _ _ _ harr]
    rfl
  · intro hL hd hp
    have h1 := readInt32_spec s L pre rest hlo hhi hd hp
    simp only [readFString]
    rw [rbind_ok _ _ _ _ _ h1]
    rw [if_pos (by omega)]

/-- Witness for C1: a positive-length UTF-8 string ("hi" plus terminator),
a negative-length UCS2 string (one ASCII and one CJK code unit plus
terminator), and the INT32_MIN corruption error. -/
theorem c1_witness :
    readFString (mkBStream (encInt32 3 ++ [104, 105, 0])) =
      .ok ([104, 105], { mkBStream (encInt32 3 ++ [104, 105, 0]) with pos := 7 })
    ∧ readFString (mkBStream (encInt32 (-3) ++ encUnits 2 [72, 20013, 0])) =
      .ok ([72, 20013],
        { mkBStream (encInt32 (-3) ++ encUnits 2 [72, 20013, 0]) with pos := 10 })
    ∧ readFString (mkBStream (encInt32 (-2147483648))) = .error .archiveCorrupted := by
  refine ⟨?_, ?_, ?_⟩
  · have h := (c1_readFString_cases (mkBStream (encInt32 3 ++ [104, 105, 0])) 3 [] []
      (by norm_num) (by norm_num)).1 [104, 105, 0] [104, 105] (by norm_num) (by decide)
      (by simp [mkBStream]) rfl (by decide)
    simpa [mkBStream] using h
  · have h := (c1_readFString_cases (mkBStream (encInt32 (-3) ++ encUnits 2 [72, 20013, 0]))
      (-3) [] [] (by norm_num) (by norm_num)).2.2.1 [72, 20013, 0] (by norm_num)
      (by norm_num) (by decide) (by decide) (by simp [mkBStream]) rfl
    simpa [mkBStream] using h
  · exact (c1_readFString_cases (mkBStream (encInt32 (-2147483648))) (-2147483648) [] []
      (by norm_num) (by norm_num)).2.2.2 rfl (by simp [mkBStream]) rfl

theorem mapChunks_take_floor {α : Type} (g : List Nat → α) (w : Nat) (hw : 0 < w) :
    ∀ (N : Nat) (l : List Nat), l.length ≤ N →
      mapChunks g w (l.take (w * (l.length / w))) = mapChunks g w l := by
  intro N
  induction N with
  | zero =>
    intro l h
    have hl : l = [] := List.length_eq_zero.mp (by omega)
    subst hl
    simp
  | succ N ih =>
    intro l h
    by_cases hlt : l.length < w
    · have hdiv : l.length / w = 0 := Nat.div_eq_of_lt hlt
      rw [hdiv]
      simp [mapChunks_short g w l hlt, mapChunks_nil]
    · push_neg at hlt
      have hq1 : 1 ≤ l.length / w := (Nat.one_le_div_iff hw).mpr hlt
      have hwq : w ≤ w * (l.length / w) := by
        calc w = w * 1 := by ring
          _ ≤ w * (l.length / w) := Nat.mul_le_mul_left w hq1
      have hmle : w * (l.length / w) ≤ l.length := by
        rw [mul_comm]
        exact Nat.div_mul_le_self l.length w
      have htlen : (l.take (w * (l.length / w))).length = w * (l.length / w) := by
        rw [List.length_take]
        omega
      have hqdrop : (l.drop w).length / w = l.length / w - 1 := by
        rw [List.length_drop]
        have hmod := Nat.div_add_mod l.length w
        have hms : w * (l.length / w) = w * (l.length / w - 1) + w := by
          have h1 : l.length / w - 1 + 1 = l.length / w := by omega
          calc w * (l.length / w) = w * (l.length / w - 1 + 1) := by rw [h1]
            _ = w * (l.length / w - 1) + w := by ring
        have hsub : l.length - w = w * (l.length / w - 1) + l.length % w := by omega
        rw [hsub, add_comm, Nat.add_mul_div_left _ _ hw,
          Nat.div_eq_of_lt (Nat.mod_lt _ hw)]
        omega
      have hsubmul : w * (l.length / w) - w = w * ((l.drop w).length / w) := by
        rw [hqdrop]
        have h1 : l.length / w - 1 + 1 = l.length / w := by omega
        have h2 : w * (l.length / w) = w * (l.length / w - 1) + w := by
          conv_lhs => rw [← h1]
          ring
        omega
      rw [mapChunks_cons g w l hw hlt]
      rw [mapChunks_cons g w (l.take (w * (l.length / w))) hw (by omega)]
      congr 1
      · congr 1
        rw [List.take_take]
        congr 1
        omega
      · rw [List.drop_take]
        rw [hsubmul]
        exact ih (l.drop w) (by rw [List.length_drop]; omega)

theorem encInt32_length (v : Int) : (encInt32 v).length = 4 := by
  simp [encInt32, packIntW, encNat_length]

/-- Reading `len / w` fixed-width values from a fresh sub-stream over a byte
buffer yields exactly the chunk decoding of the buffer. -/
theorem substream_decode (w : Nat) (hw : 0 < w) (payload : List Nat) :
    readTArrayN (unpackLE w) (payload.length / w) (mkBStream payload) =
      .ok (mapChunks leNat w payload,
        { mkBStream payload with pos := w * (payload.length / w) }) := by
  have hmle : w * (payload.length / w) ≤ payload.length := by
    rw [mul_comm]
    exact Nat.div_mul_le_self _ _
  have h := readTArrayN_chunks (unpackLE w) leNat w hw (fun t ht => unpackLE_hf w t ht)
    (payload.length / w) (mkBStream payload) []
    (payload.take (w * (payload.length / w)))
    (payload.drop (w * (payload.length / w)))
    (by simp [mkBStream])
    (by simp [mkBStream])
    (by rw [List.length_take]; omega)
  rw [mapChunks_take_floor leNat w hw payload.length payload (le_refl _)] at h
  simpa [mkBStream] using h

theorem substream_decode32 (payload : List Nat) :
    readTArrayN readUInt32 (payload.length / 4) (mkBStream payload) =
      .ok (mapChunks leNat 4 payload,
        { mkBStream payload with pos := 4 * (payload.length / 4) }) := by
  have h := substream_decode 4 (by norm_num) payload
  simpa [readUInt32] using h

theorem substream_decode16 (payload : List Nat) :
    readTArrayN readUInt16 (payload.length / 2) (mkBStream payload) =
      .ok (mapChunks leNat 2 payload,
        { mkBStream payload with pos := 2 * (payload.length / 2) }) := by
  have h := substream_decode 2 (by norm_num) payload
  simpa [readUInt16] using h

/-- C5: at or above the 32-bit-indices version threshold,
`FRawStaticIndexBuffer` reads a wide-boolean width flag then a byte-level
bulk array (plus a trailing wide boolean for game ≥ UE4.25): an empty byte
array leaves both outputs empty; a true flag yields `len/4` 32-bit
little-endian values decoded in order from a fresh sub-stream over exactly
those bytes, with `indices16` empty; a false flag yields `len/2` 16-bit
values symmetrically.  Below the threshold, `indices16` is read directly as
a bulk array of 16-bit values and `indices32` is empty. -/
theorem c5_FRawStaticIndexBuffer_cases (s : BStream) (pre rest : List Nat)
    (hp : s.pos = pre.length) :
    (∀ (is32 ebv : Bool) (n : Nat) (payload extra : List Nat),
      VER_UE4_SUPPORT_32BIT_STATIC_MESH_INDICES ≤ s.version →
      (n : Int) < 2 ^ 31 → payload.length = n →
      extra = (if GAME_UE4 25 ≤ s.game then encInt32 (if ebv then 1 else 0) else []) →
      s.data = pre ++ encInt32 (if is32 then 1 else 0) ++ encInt32 ((1 : Nat) : Int) ++
        encInt32 (n : Int) ++ payload ++ extra ++ rest →
      FRawStaticIndexBuffer.read s =
        .ok (⟨(if is32 then [] else mapChunks leNat 2 payload),
              (if is32 then mapChunks leNat 4 payload else [])⟩,
          { s with pos := s.pos + 12 + n + extra.length }))
    ∧ (∀ (n : Nat) (payload : List Nat),
      s.version < VER_UE4_SUPPORT_32BIT_STATIC_MESH_INDICES →
      (n : Int) < 2 ^ 31 → payload.length = 2 * n →
      s.data = pre ++ encInt32 ((2 : Nat) : Int) ++ encInt32 (n : Int) ++ payload ++ rest →
      FRawStaticIndexBuffer.read s =
        .ok (⟨mapChunks leNat 2 payload, []⟩, { s with pos := s.pos + 8 + 2 * n })) := by
  constructor
  · intro is32 ebv n payload extra hver hn31 hplen hextra hd
    rw [hextra] at hd
    rw [hextra]
    have hb1 := readBool_spec s is32 pre
      (encInt32 ((1 : Nat) : Int) ++ encInt32 (n : Int) ++ payload ++
        (if GAME_UE4 25 ≤ s.game then encInt32 (if ebv then 1 else 0) else []) ++ rest)
      (by rw [hd]; simp [List.append_assoc]) hp
    have hbulk := readBulkTArray_ok readInt8 leNat 1 (by norm_num) (by norm_num)
      (fun t ht => readByteToInt_hf t ht) n hn31 { s with pos := s.pos + 4 }
      (pre ++ encInt32 (if is32 then 1 else 0)) payload
      ((if GAME_UE4 25 ≤ s.game then encInt32 (if ebv then 1 else 0) else []) ++ rest)
      (by simp [hd, List.append_assoc])
      (by simp [List.length_append, encInt32_length, hp])
      (by omega)
    rw [mapChunks_leNat_one] at hbulk
    simp only [FRawStaticIndexBuffer.read]
    rw [if_neg (by omega)]
    rw [rbind_ok _ _ _ _ _ hb1]
    rw [rbind_ok _ _ _ _ _ hbulk]
    dsimp only []
    by_cases hg : GAME_UE4 25 ≤ s.game
    · rw [if_pos hg] at hd ⊢
      have hb2 := readBool_spec
        (BStream.mk s.data (s.pos + 4 + 8 + 1 * n) s.size s.fake_size s.version
          s.game s.nameMap) ebv
        (pre ++ encInt32 (if is32 then 1 else 0) ++ encInt32 ((1 : Nat) : Int) ++
          encInt32 (n : Int) ++ payload) rest
        (by dsimp only []; rw [hd])
        (by dsimp only []; simp [List.length_append, encInt32_length, hp, hplen]; omega)
      have hstep : (fun u : BStream =>
          if GAME_UE4 25 ≤ u.game then (rbind readBool fun _ => rpure ()) u
          else rpure () u)
          (BStream.mk s.data (s.pos + 4 + 8 + 1 * n) s.size s.fake_size s.version
            s.game s.nameMap) =
          .ok ((), BStream.mk s.data (s.pos + 4 + 8 + 1 * n + 4) s.size s.fake_size
            s.version s.game s.nameMap) := by
        dsimp only []
        rw [if_pos hg]
        rw [rbind_ok _ _ _ _ _ hb2]
        rfl
      rw [rbind_ok _ _ _ _ _ hstep]
      dsimp only []
      by_cases hpl : payload.length = 0
      · have hpl0 : payload = [] := List.length_eq_zero.mp hpl
        subst hpl0
        have hn0 : n = 0 := by simpa using hplen.symm
        subst hn0
        cases is32 <;>
          simp [mapChunks_nil, BStream.mk.injEq, encInt32_length]
      · rw [if_neg hpl]
        cases is32
        · simp only [Bool.false_eq_true, if_false]
          rw [substream_decode16 payload]
          dsimp only []
          simp [BStream.mk.injEq, encInt32_length, hplen, mkBStream]
        · simp only [if_true]
          rw [substream_decode32 payload]
          dsimp only []
          simp [BStream.mk.injEq, encInt32_length, hplen, mkBStream]
    · rw [if_neg hg] at hd ⊢
      have hstep : (fun u : BStream =>
          if GAME_UE4 25 ≤ u.game then (rbind readBool fun _ => rpure ()) u
          else rpure () u)
          (BStream.mk s.data (s.pos + 4 + 8 + 1 * n) s.size s.fake_size s.version
            s.game s.nameMap) =
          .ok ((), BStream.mk s.data (s.pos + 4 + 8 + 1 * n) s.size s.fake_size
            s.version s.game s.nameMap) := by
        dsimp only []
        rw [if_neg hg]
        rfl
      rw [rbind_ok _ _ _ _ _ hstep]
      dsimp only []
      by_cases hpl : payload.length = 0
      · have hpl0 : payload = [] := List.length_eq_zero.mp hpl
        subst hpl0
        have hn0 : n = 0 := by simpa using hplen.symm
        subst hn0
        cases is32 <;>
          simp [mapChunks_nil, BStream.mk.injEq]
      · rw [if_neg hpl]
        cases is32
        · simp only [Bool.false_eq_true, if_false]
          rw [substream_decode16 payload]
          dsimp only []
          simp [BStream.mk.injEq, hplen, mkBStream]
        · simp only [if_true]
          rw [substream_decode32 payload]
          dsimp only []
          simp [BStream.mk.injEq, hplen, mkBStream]
  · intro n payload hver hn31 hplen hd
    have hbulk := readBulkTArray_ok readUInt16 leNat 2 (by norm_num) (by norm_num)
      (fun t ht => unpackLE_hf 2 t ht) n hn31 s pre payload rest hd hp hplen
    simp only [FRawStaticIndexBuffer.read]
    rw [if_pos (by omega)]
    rw [rbind_ok _ _ _ _ _ hbulk]
    rfl

/-- Witness for C5: a 32-bit index buffer `[1, 2]` at version 246 (above
the threshold), and a legacy 16-bit bulk read `[1, 2]` at version 0. -/
theorem c5_witness :
    FRawStaticIndexBuffer.read
      { mkBStream (encInt32 1 ++ encInt32 1 ++ encInt32 8 ++
          [1, 0, 0, 0, 2, 0, 0, 0]) with version := 246 } =
      .ok (⟨[], [1, 2]⟩,
        { mkBStream (encInt32 1 ++ encInt32 1 ++ encInt32 8 ++
            [1, 0, 0, 0, 2, 0, 0, 0]) with version := 246, pos := 20 })
    ∧ FRawStaticIndexBuffer.read (mkBStream (encInt32 2 ++ encInt32 2 ++ [1, 0, 2, 0])) =
      .ok (⟨[1, 2], []⟩,
        { mkBStream (encInt32 2 ++ encInt32 2 ++ [1, 0, 2, 0]) with pos := 12 }) := by
  have hmc4 : mapChunks leNat 4 [1, 0, 0, 0, 2, 0, 0, 0] = [1, 2] := by
    rw [mapChunks_cons _ _ _ (by norm_num) (by norm_num)]
    rw [show List.drop 4 [1, 0, 0, 0, 2, 0, 0, 0] = [2, 0, 0, 0] from rfl]
    rw [mapChunks_cons _ _ _ (by norm_num) (by norm_num)]
    simp [mapChunks_nil, leNat]
  have hmc2 : mapChunks leNat 2 [1, 0, 2, 0] = [1, 2] := by
    rw [mapChunks_cons _ _ _ (by norm_num) (by norm_num)]
    rw [show List.drop 2 [1, 0, 2, 0] = [2, 0] from rfl]
    rw [mapChunks_cons _ _ _ (by norm_num) (by norm_num)]
    simp [mapChunks_nil, leNat]
  constructor
  · have h := (c5_FRawStaticIndexBuffer_cases
      { mkBStream (encInt32 1 ++ encInt32 1 ++ encInt32 8 ++
          [1, 0, 0, 0, 2, 0, 0, 0]) with version := 246 } [] [] rfl).1
      true true 8 [1, 0, 0, 0, 2, 0, 0, 0] []
      (by norm_num [VER_UE4_SUPPORT_32BIT_STATIC_MESH_INDICES, mkBStream])
      (by norm_num) (by norm_num)
      (by rw [if_neg (by norm_num [GAME_UE4, mkBStream])])
      (by simp [mkBStream])
    rw [hmc4] at h
    simpa [mkBStream] using h
  · have h := (c5_FRawStaticIndexBuffer_cases
      (mkBStream (encInt32 2 ++ encInt32 2 ++ [1, 0, 2, 0])) [] [] rfl).2
      2 [1, 0, 2, 0]
      (by norm_num [VER_UE4_SUPPORT_32BIT_STATIC_MESH_INDICES, mkBStream])
      (by norm_num) (by norm_num)
      (by simp [mkBStream])
    rw [hmc2] at h
    simpa [mkBStream] using h

theorem readUInt8_spec (s : BStream) (b : Nat) (pre rest : List Nat)
    (hd : s.data = pre ++ b :: rest) (hp : s.pos = pre.length) :
    readUInt8 s = .ok (b, { s with pos := s.pos + 1 }) := by
  have hdrop : s.data.drop s.pos = b :: rest := by
    rw [hd, hp, List.drop_left]
  have h := readByteToInt_hf s (by rw [hd, hp]; simp [List.length_append])
  rw [hdrop] at h
  simpa [readUInt8, leNat] using h

theorem FStripDataFlags_read_spec (s : BStream) (g c : Nat) (pre rest : List Nat)
    (hd : s.data = pre ++ g :: c :: rest) (hp : s.pos = pre.length) :
    FStripDataFlags.read s = .ok (⟨g, c⟩, { s with pos := s.pos + 2 }) := by
  have h1 := readUInt8_spec s g pre (c :: rest) hd hp
  have h2 := readUInt8_spec { s with pos := s.pos + 1 } c (pre ++ [g]) rest
    (by simp [hd]) (by simp [hp])
  simp only [FStripDataFlags.read]
  rw [rbind_ok _ _ _ _ _ h1, rbind_ok _ _ _ _ _ h2]
  rfl

/-- C8: the genuinely unimplemented layout branches of
`FStaticMeshLODResources` fail with explicit `NotImplementedError`s: for a
game tag below UE4.23 with neither the server-strip bit nor the MinLod
class-strip bit set, the legacy buffer path raises
`NotImplementedError("UE 4.23+ meshes only currently")`; in the modern
layout a present (not server-stripped, not cooked out) body that is not
inlined raises a bare `NotImplementedError`; both are distinguishable from
the malformed-encoding errors. -/
theorem c8_unimplemented_paths (secDec posDec vertDec samplerDec : Reader Unit)
    (s : BStream) (g c : Nat) (pre mid : List Nat)
    (hd : s.data = pre ++ g :: c :: mid) (hp : s.pos = pre.length)
    (secs : List Unit) (s3 : BStream)
    (hsec : readTArray secDec { s with pos := s.pos + 2 } = .ok (secs, s3)) :
    (g &&& 2 = 0 → c &&& 2 = 0 → s3.game < GAME_UE4 23 →
      s3.pos + 4 ≤ s3.data.length →
      FStaticMeshLODResources secDec posDec vertDec samplerDec s =
        .error (.notImplemented "UE 4.23+ meshes only currently"))
    ∧ (∀ pre2 rest2 : List Nat, g &&& 2 = 0 → GAME_UE4 23 ≤ s3.game →
      s3.data = pre2 ++ encInt32 0 ++ encInt32 0 ++ rest2 →
      s3.pos + 4 = pre2.length →
      FStaticMeshLODResources secDec posDec vertDec samplerDec s =
        .error (.notImplemented ""))
    ∧ (∀ m m' : String, (Err.notImplemented m ≠ .parserException m')
        ∧ (Err.notImplemented m ≠ .structError)
        ∧ (Err.notImplemented m ≠ .archiveCorrupted)) := by
  have hflags := FStripDataFlags_read_spec s g c pre mid hd hp
  refine ⟨?_, ?_, ?_⟩
  · intro hg hc hgame hfloat
    have hfl : readFloat s3 = .ok (leNat ((s3.data.drop s3.pos).take 4),
        { s3 with pos := s3.pos + 4 }) := unpackLE_hf 4 s3 hfloat
    simp only [FStaticMeshLODResources]
    rw [rbind_ok _ _ _ _ _ hflags]
    rw [rbind_ok _ _ _ _ _ hsec]
    rw [rbind_ok _ _ _ _ _ hfl]
    rw [if_pos (by simpa using hgame)]
    rw [if_pos (show _ ∧ _ from ⟨by
        simp [FStripDataFlags.isDataStrippedForServer, hg], by
        simp [FStripDataFlags.isClassDataStripped, CDSF_MinLodData, hc]⟩)]
  · intro pre2 rest2 hg hgame hd2 hp2
    have hfloat : s3.pos + 4 ≤ s3.data.length := by
      rw [hd2]
      simp [List.length_append, encInt32_length]
      omega
    have hfl : readFloat s3 = .ok (leNat ((s3.data.drop s3.pos).take 4),
        { s3 with pos := s3.pos + 4 }) := unpackLE_hf 4 s3 hfloat
    have hb1 := readBool_spec { s3 with pos := s3.pos + 4 } false pre2
      (encInt32 0 ++ rest2) (by simpa using hd2) (by simpa using hp2)
    have hb2 := readBool_spec
      (BStream.mk s3.data (s3.pos + 4 + 4) s3.size s3.fake_size s3.version
        s3.game s3.nameMap) false (pre2 ++ encInt32 0) rest2
      (by dsimp only []; rw [hd2]; simp [List.append_assoc])
      (by dsimp only []; simp [List.length_append, encInt32_length]; omega)
    simp only [FStaticMeshLODResources]
    rw [rbind_ok _ _ _ _ _ hflags]
    rw [rbind_ok _ _ _ _ _ hsec]
    rw [rbind_ok _ _ _ _ _ hfl]
    rw [if_neg (by simpa using not_lt.mpr hgame)]
    rw [rbind_ok _ _ _ _ _ hb1]
    rw [rbind_ok _ _ _ _ _ hb2]
    rw [if_pos (show _ ∧ _ from ⟨by
        simp [FStripDataFlags.isDataStrippedForServer, hg], by simp⟩)]
    rw [if_neg (by simp)]
    rw [rbind_err _ _ _ _ rfl]
  · intro m m'
    exact ⟨by intro h; injection h, by intro h; injection h, by intro h; injection h⟩

/-- Witness for C8: with empty strip flags, zero sections and a zero float,
game UE4.22 hits the legacy not-implemented error, and game UE4.23 with a
present non-inlined body hits the bare not-implemented error. -/
theorem c8_witness :
    FStaticMeshLODResources (rpure ()) (rpure ()) (rpure ()) (rpure ())
      { mkBStream ([0, 0] ++ encInt32 0 ++ [0, 0, 0, 0]) with game := GAME_UE4 22 } =
      .error (.notImplemented "UE 4.23+ meshes only currently")
    ∧ FStaticMeshLODResources (rpure ()) (rpure ()) (rpure ()) (rpure ())
      { mkBStream ([0, 0] ++ encInt32 0 ++ [0, 0, 0, 0] ++ encInt32 0 ++ encInt32 0)
          with game := GAME_UE4 23 } =
      .error (.notImplemented "") := by
  constructor
  · exact (c8_unimplemented_paths (rpure ()) (rpure ()) (rpure ()) (rpure ())
      { mkBStream ([0, 0] ++ encInt32 0 ++ [0, 0, 0, 0]) with game := GAME_UE4 22 }
      0 0 [] (encInt32 0 ++ [0, 0, 0, 0]) (by simp [mkBStream]) rfl
      []
      { mkBStream ([0, 0] ++ encInt32 0 ++ [0, 0, 0, 0]) with
        game := GAME_UE4 22, pos := 6 }
      (by decide)).1 rfl rfl (by decide) (by decide)
  · exact (c8_unimplemented_paths (rpure ()) (rpure ()) (rpure ()) (rpure ())
      { mkBStream ([0, 0] ++ encInt32 0 ++ [0, 0, 0, 0] ++ encInt32 0 ++ encInt32 0)
          with game := GAME_UE4 23 }
      0 0 [] (encInt32 0 ++ [0, 0, 0, 0] ++ encInt32 0 ++ encInt32 0)
      (by simp [mkBStream]) rfl
      []
      { mkBStream ([0, 0] ++ encInt32 0 ++ [0, 0, 0, 0] ++ encInt32 0 ++ encInt32 0) with
        game := GAME_UE4 23, pos := 6 }
      (by decide)).2.1 ([0, 0] ++ encInt32 0 ++ [0, 0, 0, 0]) [] rfl (by decide)
      (by simp [mkBStream]) (by decide)

theorem sameSuffix_rem (s t : BStream) (hst : SameSuffix s t) :
    s.data.length - s.pos = t.data.length - t.pos := by
  obtain ⟨_, _, hsuf, _, _, _⟩ := hst
  have h := congrArg List.length hsuf
  simpa [List.length_drop] using h

theorem sameSuffix_advance (s t : BStream) (hst : SameSuffix s t) (k : Nat)
    (hk : s.pos + k ≤ s.data.length) (hk' : t.pos + k ≤ t.data.length) :
    SameSuffix { s with pos := s.pos + k } { t with pos := t.pos + k } := by
  obtain ⟨hsb, htb, hsuf, hver, hgame, hnm⟩ := hst
  refine ⟨by simpa using hk, by simpa using hk', ?_, hver, hgame, hnm⟩
  show s.data.drop (s.pos + k) = t.data.drop (t.pos + k)
  rw [← List.drop_drop, ← List.drop_drop, hsuf]

theorem posOnly_rpure {α : Type} (a : α) : PosOnly (rpure a) := by
  intro s v s' h
  simp only [rpure, Except.ok.injEq, Prod.mk.injEq] at h
  rw [← h.2]
  exact ⟨rfl, le_refl _⟩

theorem localR_rpure {α : Type} (a : α) : LocalR (rpure a) := by
  refine ⟨posOnly_rpure a, ?_⟩
  intro s t hst
  exact ⟨rfl, hst⟩

theorem localR_rthrow {α : Type} (e : Err) : LocalR (rthrow (α := α) e) := by
  constructor
  · intro s v s' h
    simp [rthrow] at h
  · intro s t hst
    exact rfl

theorem localR_rbind {α β : Type} (f : Reader α) (g : α → Reader β)
    (hf : LocalR f) (hg : ∀ a, LocalR (g a)) : LocalR (rbind f g) := by
  constructor
  · intro s v s' h
    simp only [rbind] at h
    cases hfs : f s with
    | error e =>
      rw [hfs] at h
      exact Except.noConfusion h
    | ok p =>
      obtain ⟨a, s1⟩ := p
      rw [hfs] at h
      have h1 := hf.1 s a s1 hfs
      have h2 := (hg a).1 s1 v s' h
      exact ⟨h2.1.trans h1.1, le_trans h1.2 h2.2⟩
  · intro s t hst
    have hag := hf.2 s t hst
    simp only [rbind]
    cases hfs : f s with
    | error e =>
      cases hft : f t with
      | error e2 =>
        rw [hfs, hft] at hag
        exact hag
      | ok q =>
        rw [hfs, hft] at hag
        exact absurd hag (by cases q; simp [Agree])
    | ok p =>
      obtain ⟨a, s1⟩ := p
      cases hft : f t with
      | error e =>
        rw [hfs, hft] at hag
        exact absurd hag (by simp [Agree])
      | ok q =>
        obtain ⟨b, t1⟩ := q
        rw [hfs, hft] at hag
        obtain ⟨rfl, hsuf⟩ : a = b ∧ SameSuffix s1 t1 := hag
        exact (hg a).2 s1 t1 hsuf

theorem localR_ite {α : Type} (c : Prop) [Decidable c] (f g : Reader α)
    (hf : LocalR f) (hg : LocalR g) : LocalR (if c then f else g) := by
  split
  · exact hf
  · exact hg

theorem localR_readByteToInt (n : Nat) : LocalR (readByteToInt n) := by
  constructor
  · intro s v s' h
    simp only [readByteToInt, bytesRead, Except.ok.injEq, Prod.mk.injEq] at h
    rw [← h.2]
    exact ⟨rfl, by simp⟩
  · intro s t hst
    have hrem := sameSuffix_rem s t hst
    obtain ⟨hsb, htb, hsuf, hver, hgame, hnm⟩ := hst
    have hchunk : (s.data.drop s.pos).take n = (t.data.drop t.pos).take n := by
      rw [hsuf]
    have hlen : ((s.data.drop s.pos).take n).length = ((t.data.drop t.pos).take n).length := by
      rw [hchunk]
    have hlen2 : ((s.data.drop s.pos).take n).length = min n (s.data.length - s.pos) := by
      simp [List.length_take, List.length_drop]
    simp only [readByteToInt, bytesRead]
    constructor
    · rw [hchunk]
    · have hb1 : s.pos + ((s.data.drop s.pos).take n).length ≤ s.data.length := by
        rw [hlen2]
        omega
      have hb2 : t.pos + ((t.data.drop t.pos).take n).length ≤ t.data.length := by
        rw [← hlen, hlen2]
        omega
      have := sameSuffix_advance s t ⟨hsb, htb, hsuf, hver, hgame, hnm⟩
        ((s.data.drop s.pos).take n).length hb1 (by rw [hlen]; exact hb2)
      rw [← hlen]
      exact this

theorem localR_unpackBytes (n : Nat) : LocalR (unpackBytes n) := by
  constructor
  · intro s v s' h
    simp only [unpackBytes, bytesRead] at h
    split at h
    · simp only [Except.ok.injEq, Prod.mk.injEq] at h
      rw [← h.2]
      exact ⟨rfl, by simp⟩
    · exact Except.noConfusion h
  · intro s t hst
    have hrem := sameSuffix_rem s t hst
    obtain ⟨hsb, htb, hsuf, hver, hgame, hnm⟩ := hst
    have hchunk : (s.data.drop s.pos).take n = (t.data.drop t.pos).take n := by
      rw [hsuf]
    have hlen : ((s.data.drop s.pos).take n).length = ((t.data.drop t.pos).take n).length := by
      rw [hchunk]
    simp only [unpackBytes, bytesRead]
    by_cases hok : ((s.data.drop s.pos).take n).length = n
    · rw [if_pos hok, if_pos (by rw [← hlen]; exact hok)]
      constructor
      · rw [hchunk]
      · have hb1 : s.pos + ((s.data.drop s.pos).take n).length ≤ s.data.length := by
          simp only [List.length_take, List.length_drop]
          omega
        have hb2 : t.pos + ((t.data.drop t.pos).take n).length ≤ t.data.length := by
          simp only [List.length_take, List.length_drop]
          omega
        have := sameSuffix_advance s t ⟨hsb, htb, hsuf, hver, hgame, hnm⟩
          ((s.data.drop s.pos).take n).length hb1 (by rw [hlen]; exact hb2)
        rw [← hlen]
        exact this
    · rw [if_neg hok, if_neg (by rw [← hlen]; exact hok)]
      exact rfl

theorem localR_unpackLE (w : Nat) : LocalR (unpackLE w) :=
  localR_rbind _ _ (localR_unpackBytes w) (fun _ => localR_rpure _)

theorem localR_unpackLEInt (w : Nat) : LocalR (unpackLEInt w) :=
  localR_rbind _ _ (localR_unpackBytes w) (fun _ => localR_rpure _)

theorem localR_readBool : LocalR readBool := by
  apply localR_rbind _ _ (localR_unpackLEInt 4)
  intro val
  split
  · exact localR_rpure _
  split
  · exact localR_rpure _
  · exact localR_rthrow _

theorem localR_gameCond {α : Type} (p : Nat → Prop) [DecidablePred p]
    (f g : Reader α) (hf : LocalR f) (hg : LocalR g) :
    LocalR (fun u : BStream => if p u.game then f u else g u) := by
  constructor
  · intro s v s' h
    dsimp only [] at h
    split at h
    · exact hf.1 s v s' h
    · exact hg.1 s v s' h
  · intro s t hst
    have hgm : s.game = t.game := hst.2.2.2.2.1
    dsimp only []
    by_cases hc : p s.game
    · rw [if_pos hc, if_pos (hgm ▸ hc)]
      exact hf.2 s t hst
    · rw [if_neg hc, if_neg (hgm ▸ hc)]
      exact hg.2 s t hst

theorem localR_readTArrayN {α : Type} (f : Reader α) (hf : LocalR f) :
    ∀ n : Nat, LocalR (readTArrayN f n) := by
  intro n
  induction n with
  | zero => exact localR_rpure _
  | succ n ih =>
    exact localR_rbind _ _ hf fun x =>
      localR_rbind _ _ ih fun xs => localR_rpure _

theorem localR_readTArray {α : Type} (f : Reader α) (hf : LocalR f) :
    LocalR (readTArray f) :=
  localR_rbind _ _ (localR_unpackLEInt 4) fun L => localR_readTArrayN f hf L.toNat

theorem localR_readBulkTArray {α : Type} (f : Reader α) (hf : LocalR f) :
    LocalR (readBulkTArray f) := by
  constructor
  · intro s v s' h
    simp only [readBulkTArray, rbind] at h
    cases h32 : readInt32 s with
    | error e =>
      rw [h32] at h
      exact Except.noConfusion h
    | ok p =>
      obtain ⟨es, s1⟩ := p
      rw [h32] at h
      dsimp only [] at h
      cases harr : readTArray f s1 with
      | error e =>
        rw [harr] at h
        exact Except.noConfusion h
      | ok q =>
        obtain ⟨arr, s2⟩ := q
        rw [harr] at h
        dsimp only [] at h
        split at h
        · simp only [Except.ok.injEq, Prod.mk.injEq] at h
          have h1 := (localR_unpackLEInt 4).1 s es s1 h32
          have h2 := (localR_readTArray f hf).1 s1 arr s2 harr
          rw [← h.2]
          exact ⟨h2.1.trans h1.1, le_trans h1.2 h2.2⟩
        · exact Except.noConfusion h
  · intro s t hst
    have hag32 := (localR_unpackLEInt 4).2 s t hst
    simp only [readBulkTArray, rbind]
    cases h32s : readInt32 s with
    | error e =>
      cases h32t : readInt32 t with
      | error e2 =>
        dsimp only []
        rw [show readInt32 s = unpackLEInt 4 s from rfl] at h32s
        rw [show readInt32 t = unpackLEInt 4 t from rfl] at h32t
        rw [h32s, h32t] at hag32
        exact hag32
      | ok q =>
        rw [show readInt32 s = unpackLEInt 4 s from rfl] at h32s
        rw [show readInt32 t = unpackLEInt 4 t from rfl] at h32t
        rw [h32s, h32t] at hag32
        exact absurd hag32 (by cases q; simp [Agree])
    | ok p =>
      obtain ⟨es, s1⟩ := p
      cases h32t : readInt32 t with
      | error e =>
        rw [show readInt32 s = unpackLEInt 4 s from rfl] at h32s
        rw [show readInt32 t = unpackLEInt 4 t from rfl] at h32t
        rw [h32s, h32t] at hag32
        exact absurd hag32 (by simp [Agree])
      | ok q =>
        obtain ⟨es2, t1⟩ := q
        have hag32' := hag32
        rw [show readInt32 s = unpackLEInt 4 s from rfl] at h32s
        rw [show readInt32 t = unpackLEInt 4 t from rfl] at h32t
        rw [h32s, h32t] at hag32'
        obtain ⟨rfl, hsuf1⟩ : es = es2 ∧ SameSuffix s1 t1 := hag32'
        dsimp only []
        have hagArr := (localR_readTArray f hf).2 s1 t1 hsuf1
        cases hars : readTArray f s1 with
        | error e =>
          cases hart : readTArray f t1 with
          | error e2 =>
            dsimp only []
            rw [hars, hart] at hagArr
            exact hagArr
          | ok q2 =>
            rw [hars, hart] at hagArr
            exact absurd hagArr (by cases q2; simp [Agree])
        | ok p2 =>
          obtain ⟨arr, s2⟩ := p2
          cases hart : readTArray f t1 with
          | error e =>
            rw [hars, hart] at hagArr
            exact absurd hagArr (by simp [Agree])
          | ok q2 =>
            obtain ⟨arr2, t2⟩ := q2
            rw [hars, hart] at hagArr
            obtain ⟨rfl, hsuf2⟩ : arr = arr2 ∧ SameSuffix s2 t2 := hagArr
            dsimp only []
            have hd1 := (localR_readTArray f hf).1 s1 arr s2 hars
            have hd2 := (localR_readTArray f hf).1 t1 arr t2 hart
            have hrem1 := sameSuffix_rem s1 t1 hsuf1
            have hrem2 := sameSuffix_rem s2 t2 hsuf2
            have hb1 : s1.pos ≤ s1.data.length := hsuf1.1
            have hb2 : t1.pos ≤ t1.data.length := hsuf1.2.1
            have hb3 : s2.pos ≤ s2.data.length := hsuf2.1
            have hb4 : t2.pos ≤ t2.data.length := hsuf2.2.1
            rw [hd1.1] at hrem2 hb3
            rw [hd2.1] at hrem2 hb4
            have hdelta : s2.pos - s1.pos = t2.pos - t1.pos := by omega
            have hcond : ((s2.pos : Int) = (s1.pos : Int) + 4 + arr.length * es) ↔
                ((t2.pos : Int) = (t1.pos : Int) + 4 + arr.length * es) := by
              have hd1p := hd1.2
              have hd2p := hd2.2
              constructor
              · intro hh
                have : ((s2.pos - s1.pos : Nat) : Int) = 4 + arr.length * es := by
                  push_cast [Nat.cast_sub hd1p]
                  omega
                rw [hdelta] at this
                push_cast [Nat.cast_sub hd2p] at this
                omega
              · intro hh
                have : ((t2.pos - t1.pos : Nat) : Int) = 4 + arr.length * es := by
                  push_cast [Nat.cast_sub hd2p]
                  omega
                rw [← hdelta] at this
                push_cast [Nat.cast_sub hd1p] at this
                omega
            by_cases hchk : (s2.pos : Int) = (s1.pos : Int) + 4 + arr.length * es
            · rw [if_pos hchk, if_pos (hcond.mp hchk)]
              exact ⟨rfl, hsuf2⟩
            · rw [if_neg hchk, if_neg (fun hh => hchk (hcond.mpr hh))]
              show Err.rawArraySizeMismatch es ((s2.pos : Int) - (s1.pos : Int)) arr.length =
                Err.rawArraySizeMismatch es ((t2.pos : Int) - (t1.pos : Int)) arr.length
              congr 1
              have hd1p := hd1.2
              have hd2p := hd2.2
              omega

theorem localR_idxFinal (is32 : Bool) (data : List Nat) :
    LocalR (fun u : BStream =>
      if data.length = 0 then .ok (⟨[], []⟩, u)
      else if is32 then
        match readTArrayN readUInt32 (data.length / 4) (mkBStream data) with
        | .ok (vs, _) => .ok ((⟨[], vs⟩ : FRawStaticIndexBuffer), u)
        | .error e => .error e
      else
        match readTArrayN readUInt16 (data.length / 2) (mkBStream data) with
        | .ok (vs, _) => .ok ((⟨vs, []⟩ : FRawStaticIndexBuffer), u)
        | .error e => .error e) := by
  constructor
  · intro s v s' h
    dsimp only [] at h
    split at h
    · simp only [Except.ok.injEq, Prod.mk.injEq] at h
      rw [← h.2]
      exact ⟨rfl, le_refl _⟩
    · split at h
      · cases harr : readTArrayN readUInt32 (data.length / 4) (mkBStream data) with
        | error e =>
          rw [harr] at h
          exact Except.noConfusion h
        | ok q =>
          obtain ⟨vs, u2⟩ := q
          rw [harr] at h
          simp only [Except.ok.injEq, Prod.mk.injEq] at h
          rw [← h.2]
          exact ⟨rfl, le_refl _⟩
      · cases harr : readTArrayN readUInt16 (data.length / 2) (mkBStream data) with
        | error e =>
          rw [harr] at h
          exact Except.noConfusion h
        | ok q =>
          obtain ⟨vs, u2⟩ := q
          rw [harr] at h
          simp only [Except.ok.injEq, Prod.mk.injEq] at h
          rw [← h.2]
          exact ⟨rfl, le_refl _⟩
  · intro s t hst
    dsimp only []
    split
    · exact ⟨rfl, hst⟩
    · split
      · cases harr : readTArrayN readUInt32 (data.length / 4) (mkBStream data) with
        | error e => exact rfl
        | ok q =>
          obtain ⟨vs, u2⟩ := q
          exact ⟨rfl, hst⟩
      · cases harr : readTArrayN readUInt16 (data.length / 2) (mkBStream data) with
        | error e => exact rfl
        | ok q =>
          obtain ⟨vs, u2⟩ := q
          exact ⟨rfl, hst⟩

theorem localR_FRawStaticIndexBuffer : LocalR FRawStaticIndexBuffer.read := by
  have hlow : LocalR (rbind (readBulkTArray readUInt16) fun a =>
      rpure (⟨a, []⟩ : FRawStaticIndexBuffer)) :=
    localR_rbind _ _ (localR_readBulkTArray _ (localR_unpackLE 2))
      (fun a => localR_rpure _)
  have hhigh : LocalR (rbind readBool fun is32bit =>
      rbind (readBulkTArray readInt8) fun data =>
      rbind (fun u : BStream =>
        if GAME_UE4 25 ≤ u.game then (rbind readBool fun _ => rpure ()) u
        else rpure () u) fun _ =>
      fun u : BStream =>
        if data.length = 0 then .ok (⟨[], []⟩, u)
        else if is32bit then
          match readTArrayN readUInt32 (data.length / 4) (mkBStream data) with
          | .ok (vs, _) => .ok ((⟨[], vs⟩ : FRawStaticIndexBuffer), u)
          | .error e => .error e
        else
          match readTArrayN readUInt16 (data.length / 2) (mkBStream data) with
          | .ok (vs, _) => .ok ((⟨vs, []⟩ : FRawStaticIndexBuffer), u)
          | .error e => .error e) :=
    localR_rbind _ _ localR_readBool fun is32bit =>
      localR_rbind _ _ (localR_readBulkTArray _ (localR_readByteToInt 1))
        fun data =>
          localR_rbind _ _
            (localR_gameCond (fun x => GAME_UE4 25 ≤ x) _ _
              (localR_rbind _ _ localR_readBool fun _ => localR_rpure _)
              (localR_rpure _))
            fun _ => localR_idxFinal is32bit data
  constructor
  · intro s v s' h
    simp only [FRawStaticIndexBuffer.read] at h
    split at h
    · exact hlow.1 s v s' h
    · exact hhigh.1 s v s' h
  · intro s t hst
    have hver : s.version = t.version := hst.2.2.2.1
    simp only [FRawStaticIndexBuffer.read]
    by_cases hv : s.version < VER_UE4_SUPPORT_32BIT_STATIC_MESH_INDICES
    · rw [if_pos hv, if_pos (hver ▸ hv)]
      exact hlow.2 s t hst
    · rw [if_neg hv, if_neg (hver ▸ hv)]
      exact hhigh.2 s t hst

theorem localR_FStripDataFlags_read : LocalR FStripDataFlags.read :=
  localR_rbind _ _ (localR_readByteToInt 1) fun _ =>
    localR_rbind _ _ (localR_readByteToInt 1) fun _ => localR_rpure _

theorem localR_serializeBufferBody (posDec vertDec samplerDec : Reader Unit)
    (hp : LocalR posDec) (hv : LocalR vertDec) (hs : LocalR samplerDec)
    (stripFlags : FStripDataFlags) (n : Nat) :
    LocalR (serializeBufferBody posDec vertDec samplerDec stripFlags n) := by
  unfold serializeBufferBody
  apply localR_rbind _ _ hp
  intro _
  apply localR_rbind _ _ hv
  intro _
  apply localR_rbind _ _ localR_FRawStaticIndexBuffer
  intro indexBuffer
  apply localR_rbind _ _ (localR_ite _ _ _
    (localR_rbind _ _ localR_FRawStaticIndexBuffer fun b => localR_rpure _)
    (localR_rpure _))
  intro reversedIndexBuffer
  apply localR_rbind _ _ (localR_ite _ _ _
    (localR_rbind _ _ localR_FRawStaticIndexBuffer fun b => localR_rpure _)
    (localR_rpure _))
  intro wireframeIndexBuffer
  apply localR_rbind _ _ (localR_ite _ _ _
    (localR_rbind _ _ localR_FRawStaticIndexBuffer fun b => localR_rpure _)
    (localR_rpure _))
  intro adjacencyIndexBuffer
  apply localR_rbind _ _ (localR_gameCond
    (fun x => GAME_UE4 25 ≤ x ∧ !stripFlags.isClassDataStripped CDSF_RaytracingResources)
    _ _
    (localR_rbind _ _ (localR_readBulkTArray _ (localR_readByteToInt 1))
      fun _ => localR_rpure _)
    (localR_rpure _))
  intro _
  apply localR_rbind _ _ (localR_readTArrayN samplerDec hs n)
  intro _
  apply localR_rbind _ _ hs
  intro _
  exact localR_rpure _

theorem FStripDataFlags_read_total (s : BStream) (h2 : s.pos + 2 ≤ s.data.length) :
    FStripDataFlags.read s =
      .ok (⟨leNat ((s.data.drop s.pos).take 1),
            leNat ((s.data.drop (s.pos + 1)).take 1)⟩,
        { s with pos := s.pos + 2 }) := by
  have h1 := readByteToInt_hf s (by omega)
  have h2' := readByteToInt_hf { s with pos := s.pos + 1 } (by simp; omega)
  simp only [FStripDataFlags.read, readUInt8]
  rw [rbind_ok _ _ _ _ _ h1, rbind_ok _ _ _ _ _ h2']
  rfl

theorem rbind_ok_inv {α β : Type} (f : Reader α) (g : α → Reader β) (s : BStream)
    (v : β) (s' : BStream) (h : rbind f g s = .ok (v, s')) :
    ∃ a s1, f s = .ok (a, s1) ∧ g a s1 = .ok (v, s') := by
  simp only [rbind] at h
  cases hfs : f s with
  | error e =>
    rw [hfs] at h
    exact Except.noConfusion h
  | ok p =>
    obtain ⟨a, s1⟩ := p
    rw [hfs] at h
    exact ⟨a, s1, rfl, h⟩

/-- C9: the buffer-local strip-flags value read at the start of
`serializeBuffer` only advances the cursor and is never consulted — two
streams that differ only in those two bytes (with local sub-decoders)
decode to agreeing outcomes — and the presence of the gated optional
sections is decided solely by the structure-level strip flags: on success
the reversed/wireframe/adjacency index buffers are absent exactly when the
corresponding structure-level strip bit is set. -/
theorem c9_inner_strip_flags_ignored (posDec vertDec samplerDec : Reader Unit)
    (hpos : LocalR posDec) (hvert : LocalR vertDec) (hsamp : LocalR samplerDec)
    (stripFlags : FStripDataFlags) (n : Nat) (s t : BStream)
    (hs2 : s.pos + 2 ≤ s.data.length) (ht2 : t.pos + 2 ≤ t.data.length)
    (hsuffix : s.data.drop (s.pos + 2) = t.data.drop (t.pos + 2))
    (hver : s.version = t.version) (hgame : s.game = t.game)
    (hnm : s.nameMap = t.nameMap) :
    Agree (serializeBuffer posDec vertDec samplerDec stripFlags n s)
      (serializeBuffer posDec vertDec samplerDec stripFlags n t)
    ∧ (∀ (r : SerializedLODBuffers) (s' : BStream),
      serializeBuffer posDec vertDec samplerDec stripFlags n s = .ok (r, s') →
        ((r.reversedIndexBuffer = none ↔
          stripFlags.isClassDataStripped CDSF_ReversedIndexBuffer = true)
        ∧ (r.wireframeIndexBuffer = none ↔ stripFlags.isEditorDataStripped = true)
        ∧ (r.adjacencyIndexBuffer = none ↔
          stripFlags.isClassDataStripped CDSF_AdjancencyData = true))) := by
  constructor
  · have hfs := FStripDataFlags_read_total s hs2
    have hft := FStripDataFlags_read_total t ht2
    simp only [serializeBuffer]
    rw [rbind_ok _ _ _ _ _ hfs, rbind_ok _ _ _ _ _ hft]
    apply (localR_serializeBufferBody posDec vertDec samplerDec hpos hvert hsamp
      stripFlags n).2
    exact ⟨by simpa using hs2, by simpa using ht2, by simpa using hsuffix,
      hver, hgame, hnm⟩
  · intro r s' hok
    simp only [serializeBuffer] at hok
    obtain ⟨_, s1, _, hok⟩ := rbind_ok_inv _ _ _ _ _ hok
    rw [serializeBufferBody] at hok
    obtain ⟨_, s2, _, hok⟩ := rbind_ok_inv _ _ _ _ _ hok
    obtain ⟨_, s3, _, hok⟩ := rbind_ok_inv _ _ _ _ _ hok
    obtain ⟨idxB, s4, _, hok⟩ := rbind_ok_inv _ _ _ _ _ hok
    obtain ⟨rev, s5, hrev, hok⟩ := rbind_ok_inv _ _ _ _ _ hok
    obtain ⟨wir, s6, hwir, hok⟩ := rbind_ok_inv _ _ _ _ _ hok
    obtain ⟨adj, s7, hadj, hok⟩ := rbind_ok_inv _ _ _ _ _ hok
    obtain ⟨_, s8, _, hok⟩ := rbind_ok_inv _ _ _ _ _ hok
    obtain ⟨_, s9, _, hok⟩ := rbind_ok_inv _ _ _ _ _ hok
    obtain ⟨_, s10, _, hok⟩ := rbind_ok_inv _ _ _ _ _ hok
    simp only [rpure, Except.ok.injEq, Prod.mk.injEq] at hok
    obtain ⟨hr, _⟩ := hok
    subst hr
    refine ⟨?_, ?_, ?_⟩
    · cases hbit : stripFlags.isClassDataStripped CDSF_ReversedIndexBuffer with
      | true =>
        rw [hbit] at hrev
        simp only [Bool.not_true, Bool.false_eq_true, if_false, rpure,
          Except.ok.injEq, Prod.mk.injEq] at hrev
        simp [← hrev.1]
      | false =>
        rw [hbit] at hrev
        simp only [Bool.not_false, if_true] at hrev
        obtain ⟨b, _, _, hb⟩ := rbind_ok_inv _ _ _ _ _ hrev
        simp only [rpure, Except.ok.injEq, Prod.mk.injEq] at hb
        simp [← hb.1]
    · cases hbit : stripFlags.isEditorDataStripped with
      | true =>
        rw [hbit] at hwir
        simp only [Bool.not_true, Bool.false_eq_true, if_false, rpure,
          Except.ok.injEq, Prod.mk.injEq] at hwir
        simp [← hwir.1]
      | false =>
        rw [hbit] at hwir
        simp only [Bool.not_false, if_true] at hwir
        obtain ⟨b, _, _, hb⟩ := rbind_ok_inv _ _ _ _ _ hwir
        simp only [rpure, Except.ok.injEq, Prod.mk.injEq] at hb
        simp [← hb.1]
    · cases hbit : stripFlags.isClassDataStripped CDSF_AdjancencyData with
      | true =>
        rw [hbit] at hadj
        simp only [Bool.not_true, Bool.false_eq_true, if_false, rpure,
          Except.ok.injEq, Prod.mk.injEq] at hadj
        simp [← hadj.1]
      | false =>
        rw [hbit] at hadj
        simp only [Bool.not_false, if_true] at hadj
        obtain ⟨b, _, _, hb⟩ := rbind_ok_inv _ _ _ _ _ hadj
        simp only [rpure, Except.ok.injEq, Prod.mk.injEq] at hb
        simp [← hb.1]

/-- Witness for C9: two streams that differ only in the two buffer-local
strip-flag bytes (7,7 vs 9,9), followed by four empty 16-bit index buffers,
decode to agreeing outcomes. -/
theorem c9_witness :
    Agree
      (serializeBuffer (rpure ()) (rpure ()) (rpure ()) ⟨0, 0⟩ 0
        (mkBStream ([7, 7] ++ (encInt32 2 ++ encInt32 0) ++ (encInt32 2 ++ encInt32 0) ++
          (encInt32 2 ++ encInt32 0) ++ (encInt32 2 ++ encInt32 0))))
      (serializeBuffer (rpure ()) (rpure ()) (rpure ()) ⟨0, 0⟩ 0
        (mkBStream ([9, 9] ++ (encInt32 2 ++ encInt32 0) ++ (encInt32 2 ++ encInt32 0) ++
          (encInt32 2 ++ encInt32 0) ++ (encInt32 2 ++ encInt32 0)))) :=
  (c9_inner_strip_flags_ignored (rpure ()) (rpure ()) (rpure ())
    (localR_rpure _) (localR_rpure _) (localR_rpure _) ⟨0, 0⟩ 0
    (mkBStream ([7, 7] ++ (encInt32 2 ++ encInt32 0) ++ (encInt32 2 ++ encInt32 0) ++
      (encInt32 2 ++ encInt32 0) ++ (encInt32 2 ++ encInt32 0)))
    (mkBStream ([9, 9] ++ (encInt32 2 ++ encInt32 0) ++ (encInt32 2 ++ encInt32 0) ++
      (encInt32 2 ++ encInt32 0) ++ (encInt32 2 ++ encInt32 0)))
    (by decide) (by decide) (by decide) rfl rfl rfl).1
